import Mathlib

/-!
Verification of the smartfetch extraction-and-confidence-scoring pipeline.

This file shallowly embeds the core of the repository:
  * the regex-driven pattern extractors of src/textExtract.js (basic
    revision) and src/unnamed/part_012 (enhanced revision),
  * the confidence scorer of src/scoreMatch.js, over a small model of
    dynamically-typed JavaScript values,
  * the escalation controller of src/aiPostProcessor.js together with
    the status decision of src/SmartFetchExtension/offscreen.js,
and proves, or refutes on explicit inputs, the specified properties of
threshold consistency, escalation fallback, score monotonicity and
boundedness, empty-input safety, the low-tier gate, the repeated-character
filter, and the discount range clamps.

JavaScript regular expressions are modelled by a small executable
backtracking engine (leftmost alternative first, greedy counted
repetition, word boundaries, lookahead), and String.prototype.matchAll
by a forward scan that restarts after each match, as the V8 engine does.
-/

namespace SmartFetch

/- Rational arithmetic must evaluate inside proofs by decide; the
sealed kernel implementations of the Rat operations are unsealed for
elaboration (the kernel itself never consults reducibility). -/
unseal Rat.mul Rat.inv Rat.add Rat.sub Rat.ofScientific

/- ### Character classes and elementary string operations (ASCII texts) -/

/-- JavaScript \s (the ASCII part: space, tab, LF, VT, FF, CR). -/
def isWsChar (c : Char) : Bool :=
  c == ' ' || c == '\t' || c == '\n' || c == '\r' || c.val == 11 || c.val == 12

/-- Class [A-Z0-9] of a case-sensitive pattern. -/
def isUpperAlnum (c : Char) : Bool := c.isUpper || c.isDigit

/-- Class [A-Z0-9] under the /i flag: it also matches a-z. -/
def isAlnumCI (c : Char) : Bool := c.isUpper || c.isLower || c.isDigit

/-- JavaScript \w: [A-Za-z0-9_]. -/
def isWordChar (c : Char) : Bool := isAlnumCI c || c == '_'

/-- Characters matched by . (anything but line terminators). -/
def isDotChar (c : Char) : Bool :=
  !(c.val == 10 || c.val == 13 || c.val == 0x2028 || c.val == 0x2029)

/-- String.prototype.toLowerCase, on the ASCII texts in scope. -/
def lowerStr (l : List Char) : List Char := l.map Char.toLower

/-- String.prototype.toUpperCase, on the ASCII texts in scope. -/
def upperStr (l : List Char) : List Char := l.map Char.toUpper

/-- String.prototype.trim. -/
def jsTrim (l : List Char) : List Char :=
  ((l.dropWhile isWsChar).reverse.dropWhile isWsChar).reverse

/-- String.prototype.includes. -/
def strContains : List Char → List Char → Bool
  | [], nee => nee.isEmpty
  | hay@(_ :: t), nee => nee.isPrefixOf hay || strContains t nee

/-- Value of a list of decimal digits (the core of parseInt on a \d+ capture). -/
def digitsVal (l : List Char) : Nat :=
  l.foldl (fun acc c => 10 * acc + (c.toNat - 48)) 0

/-- parseInt applied to a capture of \d+ (always all digits here). -/
def parseIntJS (l : List Char) : ℚ := (digitsVal l : ℚ)

/-- parseFloat applied to a capture of \d+(\.\d{1,2})?. -/
def parseDecJS (l : List Char) : ℚ :=
  let intPart := l.takeWhile (fun c => c != '.')
  let fracPart := (l.dropWhile (fun c => c != '.')).drop 1
  (digitsVal intPart : ℚ) + (digitsVal fracPart : ℚ) / ((10 : ℚ) ^ fracPart.length)

/- ### A small backtracking regex engine

Alternatives are tried left to right, counted repetition is greedy, and
the first element of the returned list is the match the JavaScript engine
would produce at that position. -/

inductive RE where
  | eps : RE
  | cls (p : Char → Bool) : RE
  | seq (a b : RE) : RE
  | alt (a b : RE) : RE
  | grp (r : RE) : RE
  | wordB : RE
  | look (p : List Char → Bool) : RE

/-- One way a pattern can match at the current position. -/
structure MRes where
  consumed : List Char
  rest : List Char
  cap : Option (List Char)
deriving Repr

/-- Word-boundary test between the previously consumed character and the
next input character. -/
def atBoundary (prev : Option Char) (next : Option Char) : Bool :=
  (prev.elim false isWordChar) != (next.elim false isWordChar)

/-- All matches of a pattern anchored at the start of s, best first.
prev is the character just before the current position (for \b). -/
def reMatch : RE → Option Char → List Char → List MRes
  | .eps, _, s => [⟨[], s, none⟩]
  | .cls p, _, s =>
    match s with
    | [] => []
    | c :: rest => if p c then [⟨[c], rest, none⟩] else []
  | .seq a b, prev, s =>
    (reMatch a prev s).flatMap fun ra =>
      (reMatch b (ra.consumed.getLast?.elim prev some) ra.rest).map fun rb =>
        ⟨ra.consumed ++ rb.consumed, rb.rest, ra.cap.elim rb.cap some⟩
  | .alt a b, prev, s => reMatch a prev s ++ reMatch b prev s
  | .grp r, prev, s =>
    (reMatch r prev s).map fun m => ⟨m.consumed, m.rest, some m.consumed⟩
  | .wordB, prev, s =>
    if atBoundary prev s.head? then [⟨[], s, none⟩] else []
  | .look p, _, s => if p s then [⟨[], s, none⟩] else []

/-- Exactly n copies of r. -/
def reRepExact (r : RE) : Nat → RE
  | 0 => .eps
  | n + 1 => .seq r (reRepExact r n)

/-- At most n copies of r, greedy (more copies preferred). -/
def reRepMax (r : RE) : Nat → RE
  | 0 => .eps
  | n + 1 => .alt (.seq r (reRepMax r n)) .eps

/-- Counted repetition r{lo,hi}, greedy. -/
def reRep (r : RE) (lo hi : Nat) : RE := .seq (reRepExact r lo) (reRepMax r (hi - lo))

/-- r?, greedy. -/
def reOpt (r : RE) : RE := .alt r .eps

/-- A case-sensitive literal. -/
def strRE : List Char → RE
  | [] => .eps
  | c :: t => .seq (.cls (fun x => x == c)) (strRE t)

/-- A literal under the /i flag. -/
def strCIRE : List Char → RE
  | [] => .eps
  | c :: t => .seq (.cls (fun x => x.toLower == c.toLower)) (strCIRE t)

/-- Alternation of a list of patterns, leftmost first. -/
def altRE : List RE → RE
  | [] => .cls (fun _ => false)
  | [r] => r
  | r :: t => .alt r (altRE t)

/-- One match produced by matchAll: the whole match and the first group. -/
structure MatchVal where
  whole : List Char
  cap : Option (List Char)
deriving Repr

/-- String.prototype.matchAll with a /g pattern: scan forward, restart
after each match, advance one character past a zero-length match. -/
def matchAllAux (re : RE) : Nat → Option Char → List Char → List MatchVal
  | 0, _, _ => []
  | fuel + 1, prev, s =>
    match (reMatch re prev s).head?, s with
    | some m, [] =>
      if m.consumed.isEmpty then [⟨m.consumed, m.cap⟩]
      else ⟨m.consumed, m.cap⟩ :: matchAllAux re fuel m.consumed.getLast? m.rest
    | some m, c :: rest =>
      if m.consumed.isEmpty then ⟨m.consumed, m.cap⟩ :: matchAllAux re fuel (some c) rest
      else ⟨m.consumed, m.cap⟩ :: matchAllAux re fuel m.consumed.getLast? m.rest
    | none, [] => []
    | none, c :: rest => matchAllAux re fuel (some c) rest

/-- All matches of a /g pattern over a string. -/
def matchAll (re : RE) (s : List Char) : List MatchVal :=
  matchAllAux re (s.length + 1) none s

/-- match[1] || match[0]: the capture when present and non-empty
(an empty capture is falsy), else the whole match. -/
def matchValue (m : MatchVal) : List Char :=
  match m.cap with
  | some c => if c.isEmpty then m.whole else c
  | none => m.whole

/-- All values (match[1] || match[0]) of matchAll. -/
def matchAllValues (re : RE) (s : List Char) : List (List Char) :=
  (matchAll re s).map matchValue

/- ### The patterns of src/textExtract.js and src/unnamed/part_012

The unbounded quantifiers \s+, \d+, [^\s]+ and the .* of the scorer are
bounded by the input length n, which a single class repetition can never
exceed; each pattern is therefore a function of n. -/

/-- Class [\s:\-"'] (code separators). -/
def isSepChar (c : Char) : Bool :=
  isWsChar c || c == ':' || c == '-' || c == '"' || c == Char.ofNat 39

/-- Class [\s:\-]. -/
def isSepChar3 (c : Char) : Bool := isWsChar c || c == ':' || c == '-'

/-- Class [\s:\-=]. -/
def isSepCharEq (c : Char) : Bool := isSepChar3 c || c == '='

/-- Class ["'] (either quote). -/
def isQuoteChar (c : Char) : Bool := c == '"' || c == Char.ofNat 39

/-- \s+ -/
def wsPlus (n : Nat) : RE := reRep (.cls isWsChar) 1 n

/-- \s* -/
def wsStar (n : Nat) : RE := reRepMax (.cls isWsChar) n

/-- /https?:\/\/[^\s]+/g -/
def linksRE (n : Nat) : RE :=
  .seq (strRE "http".data) (.seq (reOpt (.cls (fun c => c == 's')))
    (.seq (strRE "://".data) (reRep (.cls (fun c => !isWsChar c)) 1 n)))

/-- /["']([A-Z0-9]{3,15})["']/g -/
def quotedCodesRE : RE :=
  .seq (.cls isQuoteChar) (.seq (.grp (reRep (.cls isUpperAlnum) 3 15)) (.cls isQuoteChar))

/-- /(?:use|enter|apply|redeem)\s+(?:code|promo|coupon)[\s:\-"']*([A-Z0-9]{3,15})/gi -/
def useCodeRE (n : Nat) : RE :=
  .seq (altRE (List.map (fun w => strCIRE w.data) ["use", "enter", "apply", "redeem"]))
    (.seq (wsPlus n)
      (.seq (altRE (List.map (fun w => strCIRE w.data) ["code", "promo", "coupon"]))
        (.seq (reRepMax (.cls isSepChar) n) (.grp (reRep (.cls isAlnumCI) 3 15)))))

/-- /coupon[\s:\-]*([A-Z0-9]{3,15})/gi -/
def couponRE (n : Nat) : RE :=
  .seq (strCIRE "coupon".data)
    (.seq (reRepMax (.cls isSepChar3) n) (.grp (reRep (.cls isAlnumCI) 3 15)))

/-- /promo(?:code)?[\s:\-=]*([A-Z0-9]{3,15})/gi -/
def promoRE (n : Nat) : RE :=
  .seq (strCIRE "promo".data)
    (.seq (reOpt (strCIRE "code".data))
      (.seq (reRepMax (.cls isSepCharEq) n) (.grp (reRep (.cls isAlnumCI) 3 15))))

/-- (?:off|discount|savings?) -/
def discWords1 : RE :=
  altRE [strCIRE "off".data, strCIRE "discount".data,
    .seq (strCIRE "saving".data) (reOpt (.cls (fun c => c.toLower == 's')))]

/-- /(\d+)%\s*(?:off|discount|savings?)/gi -/
def percentOffRE (n : Nat) : RE :=
  .seq (.grp (reRep (.cls Char.isDigit) 1 n))
    (.seq (.cls (fun c => c == '%')) (.seq (wsStar n) discWords1))

/-- (\d+(?:\.\d{1,2})?) -/
def decNumRE (n : Nat) : RE :=
  .seq (reRep (.cls Char.isDigit) 1 n)
    (reOpt (.seq (.cls (fun c => c == '.')) (reRep (.cls Char.isDigit) 1 2)))

/-- (?:off|discount|cashback|savings?) -/
def flatWords1 : RE :=
  altRE [strCIRE "off".data, strCIRE "discount".data, strCIRE "cashback".data,
    .seq (strCIRE "saving".data) (reOpt (.cls (fun c => c.toLower == 's')))]

/-- /(?:\$|₹|£|€)(\d+(?:\.\d{1,2})?)\s*(?:off|discount|cashback|savings?)/gi -/
def flatDiscountRE (n : Nat) : RE :=
  .seq (.cls (fun c => c == '$' || c == '₹' || c == '£' || c == '€'))
    (.seq (.grp (decNumRE n)) (.seq (wsStar n) flatWords1))

/-- (?=.*[A-Z]): some uppercase letter later on the current line. -/
def lookUpper (s : List Char) : Bool := (s.takeWhile isDotChar).any Char.isUpper

/-- (?=.*[0-9]): some digit later on the current line. -/
def lookDigit (s : List Char) : Bool := (s.takeWhile isDotChar).any Char.isDigit

/-- /\b(?=.*[A-Z])(?=.*[0-9])[A-Z0-9]{4,12}\b/g -/
def alphanumRE : RE :=
  .seq .wordB (.seq (.look lookUpper) (.seq (.look lookDigit)
    (.seq (reRep (.cls isUpperAlnum) 4 12) .wordB)))

/- ### The basic extractor: extractCodes of src/textExtract.js -/

/-- The deduplicated result record (Sets converted to Arrays). -/
structure Extraction where
  links : List (List Char)
  codes : List (List Char)
  percent_off : List ℚ
  flat_discount : List ℚ
deriving Repr, DecidableEq

/-- Set.prototype.add: append if not already present. -/
def addUnique (l : List (List Char)) (x : List Char) : List (List Char) :=
  if x ∈ l then l else l ++ [x]

/-- Insertion-ordered deduplication (a JS Set filled by iteration). -/
def dedupKeepFirst (l : List (List Char)) : List (List Char) :=
  l.foldl addUnique []

/-- Set.prototype.add for numbers. -/
def addUniqueQ (l : List ℚ) (x : ℚ) : List ℚ :=
  if x ∈ l then l else l ++ [x]

def dedupKeepFirstQ (l : List ℚ) : List ℚ := l.foldl addUniqueQ []

/-- Insert into a descending list. -/
def insertDesc (x : ℚ) : List ℚ → List ℚ
  | [] => [x]
  | y :: t => if y ≤ x then x :: y :: t else y :: insertDesc x t

/-- .sort((a, b) => b - a): numeric sort, descending. -/
def sortDesc (l : List ℚ) : List ℚ := l.foldr insertDesc []

/-- The static blacklist of src/textExtract.js. -/
def basicBlacklist : List (List Char) :=
  ["CODE", "CODES", "PROMO", "COUPON", "DISCOUNT", "BONUS", "FREE",
   "PROMO CODE", "PROMO CODES", "COUPON CODE", "DISCLAIMER"].map String.data

/-- Code handling of the basic extractor: blacklist on the upper-cased
trimmed candidate, then the 3..15 length bound on the original value. -/
def basicProcessCode (v : List Char) : Option (List Char) :=
  let candidate := upperStr (jsTrim v)
  let originalValue := jsTrim v
  if basicBlacklist.contains candidate then none
  else if 3 ≤ originalValue.length && originalValue.length ≤ 15 then some originalValue
  else none

/-- The four code-producing patterns of the basic extractor, in the
iteration order of the patterns object (quotedCodes, useCode, coupon,
promo, alphanum). -/
def basicCodePatterns (n : Nat) : List RE :=
  [quotedCodesRE, useCodeRE n, couponRE n, promoRE n, alphanumRE]

/-- extractCodes of src/textExtract.js on non-empty text (the result
sets of the single pattern loop, split by result field; fields are
disjoint so the per-field order equals the loop order). -/
def extractCodesCore (text : List Char) : Extraction :=
  let n := text.length
  { links := dedupKeepFirst ((matchAllValues (linksRE n) text).map jsTrim)
    codes := dedupKeepFirst
      ((basicCodePatterns n).flatMap fun re =>
        (matchAllValues re text).filterMap basicProcessCode)
    percent_off := sortDesc (dedupKeepFirstQ
      (((matchAllValues (percentOffRE n) text).map parseIntJS).filter
        fun p => 0 < p && p ≤ 100))
    flat_discount := sortDesc (dedupKeepFirstQ
      (((matchAllValues (flatDiscountRE n) text).map parseDecJS).filter
        fun v => 0 < v)) }

/-- The empty result returned by the empty-input guard. -/
def emptyExtraction : Extraction := ⟨[], [], [], []⟩

/-- extractCodes of src/textExtract.js on a string input (the null /
non-string cases of the guard are handled by the JVal wrapper below). -/
def extractCodesBasic (text : String) : Extraction :=
  if (jsTrim text.data).length == 0 then emptyExtraction
  else extractCodesCore text.data

/- ### The enhanced extractor: extractCodes of src/unnamed/part_012

Modelled at its channelId = null call (no channel rules, no custom
patterns) with the core blacklist (the external config file read by
loadBlacklist is an out-of-scope collaborator; its absence falls back to
the core list, which is the path embedded here). The diagnostic
extractionMetrics counters are not modelled; no claim concerns them. -/

/-- Provenance confidence tier of a pattern
(the strings 'high' / 'medium' / 'low' of the source). -/
inductive Tier where
  | high : Tier
  | medium : Tier
  | low : Tier
deriving Repr, DecidableEq

/-- One element of the results.codes object set of the enhanced extractor. -/
structure TaggedCode where
  code : List Char
  conf : Tier
  pat : String
deriving Repr, DecidableEq

/-- The coreBlacklist of src/unnamed/part_012. -/
def coreBlacklist : List (List Char) :=
  ["CODE", "CODES", "PROMO", "COUPON", "DISCOUNT", "BONUS", "FREE",
   "PROMO CODE", "PROMO CODES", "COUPON CODE", "DISCLAIMER",
   "MRBEAST", "LINUS", "MKBHD", "SUBSCRIBE", "CHANNEL", "VIDEO",
   "MERCH", "EXCLUSIVE", "CONTENT", "FLOATPLANE", "SPONSORS", "AFFILIATES",
   "PARTNERS", "CHAPTERS", "HERE", "LINK", "2025", "2024",
   "DDR5", "NVME", "16GB", "32GB", "I7", "RTX", "AMD", "INTEL",
   "NVIDIA", "GEFORCE", "RADEON", "CORSAIR", "ASUS", "MSI"].map String.data

/-- The techTerms list of src/unnamed/part_012. -/
def techTerms : List (List Char) :=
  ["DDR5", "NVME", "16GB", "32GB", "I7", "RTX", "GTX", "AMD", "INTEL",
   "NVIDIA", "GEFORCE", "RADEON", "CORSAIR", "ASUS", "MSI", "EVGA",
   "I5", "I9", "R5", "R7", "R9", "RTX4090", "RTX4080", "RTX4070"].map String.data

/-- /(?:use|enter|apply|redeem|type|input)\s+(?:code|promo|coupon)?[\s:\-"']*([A-Z0-9]{3,15})/gi -/
def useCodeEnhRE (n : Nat) : RE :=
  .seq (altRE (List.map (fun w => strCIRE w.data)
      ["use", "enter", "apply", "redeem", "type", "input"]))
    (.seq (wsPlus n)
      (.seq (reOpt (altRE (List.map (fun w => strCIRE w.data) ["code", "promo", "coupon"])))
        (.seq (reRepMax (.cls isSepChar) n) (.grp (reRep (.cls isAlnumCI) 3 15)))))

/-- /(?:at\s+checkout|during\s+checkout|checkout\s+code)[\s:\-"']*([A-Z0-9]{3,15})/gi -/
def checkoutCodeRE (n : Nat) : RE :=
  .seq (altRE
      [.seq (strCIRE "at".data) (.seq (wsPlus n) (strCIRE "checkout".data)),
       .seq (strCIRE "during".data) (.seq (wsPlus n) (strCIRE "checkout".data)),
       .seq (strCIRE "checkout".data) (.seq (wsPlus n) (strCIRE "code".data))])
    (.seq (reRepMax (.cls isSepChar) n) (.grp (reRep (.cls isAlnumCI) 3 15)))

/-- /with\s+(?:code|promo)?[\s:\-"']*([A-Z0-9]{3,15})/gi -/
def withCodeRE (n : Nat) : RE :=
  .seq (strCIRE "with".data)
    (.seq (wsPlus n)
      (.seq (reOpt (altRE [strCIRE "code".data, strCIRE "promo".data]))
        (.seq (reRepMax (.cls isSepChar) n) (.grp (reRep (.cls isAlnumCI) 3 15)))))

/-- /code[\s:\-]+([A-Z0-9]{3,15})/gi -/
def codePrefRE (n : Nat) : RE :=
  .seq (strCIRE "code".data)
    (.seq (reRep (.cls isSepChar3) 1 n) (.grp (reRep (.cls isAlnumCI) 3 15)))

/-- (?:off|discount|savings?|reduced|cheaper) -/
def discWords2 : RE :=
  altRE [strCIRE "off".data, strCIRE "discount".data,
    .seq (strCIRE "saving".data) (reOpt (.cls (fun c => c.toLower == 's'))),
    strCIRE "reduced".data, strCIRE "cheaper".data]

/-- /(\d+)%\s*(?:off|discount|savings?|reduced|cheaper)/gi -/
def percentOffEnhRE (n : Nat) : RE :=
  .seq (.grp (reRep (.cls Char.isDigit) 1 n))
    (.seq (.cls (fun c => c == '%')) (.seq (wsStar n) discWords2))

/-- (?:off|discount|cashback|savings?|reduced) -/
def flatWords2 : RE :=
  altRE [strCIRE "off".data, strCIRE "discount".data, strCIRE "cashback".data,
    .seq (strCIRE "saving".data) (reOpt (.cls (fun c => c.toLower == 's'))),
    strCIRE "reduced".data]

/-- /(?:\$|₹|£|€|¥|₩)(\d+(?:\.\d{1,2})?)\s*(?:off|discount|cashback|savings?|reduced)/gi -/
def flatDiscountEnhRE (n : Nat) : RE :=
  .seq (.cls (fun c => c == '$' || c == '₹' || c == '£' || c == '€' || c == '¥' || c == '₩'))
    (.seq (.grp (decNumRE n)) (.seq (wsStar n) flatWords2))

/-- /get\s+(?:\$|₹|£|€)(\d+(?:\.\d{1,2})?)\s*off/gi -/
def getOffRE (n : Nat) : RE :=
  .seq (strCIRE "get".data)
    (.seq (wsPlus n)
      (.seq (.cls (fun c => c == '$' || c == '₹' || c == '£' || c == '€'))
        (.seq (.grp (decNumRE n)) (.seq (wsStar n) (strCIRE "off".data)))))

/-- /save\s+(?:\$|₹|£|€)(\d+(?:\.\d{1,2})?)/gi -/
def saveAmountRE (n : Nat) : RE :=
  .seq (strCIRE "save".data)
    (.seq (wsPlus n)
      (.seq (.cls (fun c => c == '$' || c == '₹' || c == '£' || c == '€'))
        (.grp (decNumRE n))))

/-- /(\d+)\s*(?:extra|free|bonus)\s*(?:months?|days?|weeks?)/gi -/
def timeBonusRE (n : Nat) : RE :=
  .seq (.grp (reRep (.cls Char.isDigit) 1 n))
    (.seq (wsStar n)
      (.seq (altRE [strCIRE "extra".data, strCIRE "free".data, strCIRE "bonus".data])
        (.seq (wsStar n)
          (altRE
            [.seq (strCIRE "month".data) (reOpt (.cls (fun c => c.toLower == 's'))),
             .seq (strCIRE "day".data) (reOpt (.cls (fun c => c.toLower == 's'))),
             .seq (strCIRE "week".data) (reOpt (.cls (fun c => c.toLower == 's')))]))))

/-- /up\s+to\s+(\d+)%\s*(?:off|discount|savings?)/gi -/
def upToPercentRE (n : Nat) : RE :=
  .seq (strCIRE "up".data)
    (.seq (wsPlus n)
      (.seq (strCIRE "to".data)
        (.seq (wsPlus n)
          (.seq (.grp (reRep (.cls Char.isDigit) 1 n))
            (.seq (.cls (fun c => c == '%')) (.seq (wsStar n) discWords1))))))

/-- The enhanced code filter: blacklist, tech terms, all-digit or
all-letter candidates, trailing four digits, then the 3..15 length
bound; survivors are tagged with the tier of their pattern. -/
def enhProcessCode (tier : Tier) (patName : String) (v : List Char) : Option TaggedCode :=
  let candidate := upperStr (jsTrim v)
  let originalValue := jsTrim v
  if coreBlacklist.contains candidate then none
  else if techTerms.any (fun t => strContains candidate t) then none
  else if (!candidate.isEmpty && candidate.all Char.isDigit)
       || (!candidate.isEmpty && candidate.all Char.isUpper) then none
  else if (candidate.length == 4 && candidate.all Char.isDigit)
       || (4 ≤ candidate.length && (candidate.drop (candidate.length - 4)).all Char.isDigit)
       then none
  else if 3 ≤ originalValue.length && originalValue.length ≤ 15 then
    some ⟨originalValue, tier, patName⟩
  else none

/-- The code-producing patterns of the enhanced extractor with their
tiers, in the iteration order of its patterns object. -/
def enhCodePatterns (n : Nat) : List (Tier × String × RE) :=
  [(.high, "quotedCodes", quotedCodesRE),
   (.high, "useCode", useCodeEnhRE n),
   (.high, "checkoutCode", checkoutCodeRE n),
   (.high, "withCode", withCodeRE n),
   (.medium, "coupon", couponRE n),
   (.medium, "promo", promoRE n),
   (.medium, "codePrefix", codePrefRE n),
   (.low, "alphanum", alphanumRE)]

/-- The object set results.codes after the pattern loop: every surviving
candidate of every code pattern, in loop order (objects are never equal,
so the Set keeps all of them). -/
def enhTagged (text : List Char) : List TaggedCode :=
  (enhCodePatterns text.length).flatMap fun e =>
    (matchAllValues e.2.2 text).filterMap (enhProcessCode e.1 e.2.1)

/-- The result record of the enhanced extractor. -/
structure EnhExtraction where
  links : List (List Char)
  codes : List (List Char)
  percent_off : List ℚ
  flat_discount : List ℚ
deriving Repr, DecidableEq

/-- The final codes array: stable sort of the tagged set by tier
(high, medium, low), then the code strings deduplicated keeping the
first occurrence. -/
def enhSortedCodes (tagged : List TaggedCode) : List (List Char) :=
  dedupKeepFirst (List.map TaggedCode.code
    ((tagged.filter fun t => t.conf == .high)
      ++ (tagged.filter fun t => t.conf == .medium)
      ++ (tagged.filter fun t => t.conf == .low)))

/-- extractCodes of src/unnamed/part_012 on non-empty text at
channelId = null; the per-field streams follow the single loop order
(percentOff before upToPercent; flatDiscount, getOff, saveAmount, then
timeBonus). -/
def extractCodesEnhCore (text : List Char) : EnhExtraction :=
  let n := text.length
  { links := dedupKeepFirst ((matchAllValues (linksRE n) text).map jsTrim)
    codes := enhSortedCodes (enhTagged text)
    percent_off := sortDesc (dedupKeepFirstQ
      ((((matchAllValues (percentOffEnhRE n) text)
          ++ (matchAllValues (upToPercentRE n) text)).map parseIntJS).filter
        fun p => 0 < p && p ≤ 100))
    flat_discount := sortDesc (dedupKeepFirstQ
      (((((matchAllValues (flatDiscountEnhRE n) text)
            ++ (matchAllValues (getOffRE n) text)
            ++ (matchAllValues (saveAmountRE n) text)).map parseDecJS).filter
          fun v => 0 < v && v ≤ 10000)
        ++ (((matchAllValues (timeBonusRE n) text).map parseIntJS).filter
          fun t => 0 < t && t ≤ 365))) }

/-- The empty result of the enhanced guard. -/
def emptyEnhExtraction : EnhExtraction := ⟨[], [], [], []⟩

/-- extractCodes of src/unnamed/part_012 on a string input. -/
def extractCodesEnh (text : String) : EnhExtraction :=
  if (jsTrim text.data).length == 0 then emptyEnhExtraction
  else extractCodesEnhCore text.data

/- ### A model of dynamically typed JavaScript values

src/scoreMatch.js is defensive about the top-level shape of its input
but not about element types, so its embedding works over a model of JS
values. NaN is a separate number marker; the unreachable infinities are
not distinguished from it. -/

inductive JVal where
  | vStr (s : List Char) : JVal
  | vNum (q : ℚ) : JVal
  | vNaN : JVal
  | vBool (b : Bool) : JVal
  | vNull : JVal
  | vUndef : JVal
  | vArr (elts : List JVal) : JVal
  | vObj (fields : List (List Char × JVal)) : JVal

/-- A JS number: a rational or NaN. -/
def JNum := Option ℚ

/-- A thrown JavaScript exception (a TypeError in every reachable case). -/
inductive JsErr where
  | typeError (msg : List Char) : JsErr
deriving Repr, DecidableEq

/-- ToBoolean. -/
def jsTruthy : JVal → Bool
  | .vStr s => !s.isEmpty
  | .vNum q => !(q == 0)
  | .vNaN => false
  | .vBool b => b
  | .vNull => false
  | .vUndef => false
  | .vArr _ => true
  | .vObj _ => true

/-- Decimal rendering of a natural number. -/
def natToStr (n : Nat) : List Char :=
  (Nat.toDigits 10 n)

/-- Number-to-string conversion. Exact for the integers and terminating
decimals the pipeline can produce; other rationals (never produced) are
rendered as a placeholder. -/
def numToStr (q : ℚ) : List Char :=
  let sign : List Char := if q < 0 then ['-'] else []
  let a : ℚ := |q|
  if a.den == 1 then sign ++ natToStr a.num.toNat
  else if (a * 1000000000).den == 1 then
    let units := (a * 1000000000).num.toNat
    let ip := units / 1000000000
    let fp := units % 1000000000
    let padded := List.replicate (9 - (natToStr fp).length) '0' ++ natToStr fp
    sign ++ natToStr ip ++ ['.'] ++ (padded.reverse.dropWhile (fun c => c == '0')).reverse
  else ['?']

/-- A basic ToNumber on strings: optional sign, digits, optional
fraction (the only string shapes the pipeline can feed it). -/
def strToNum (s : List Char) : JNum :=
  let t := jsTrim s
  if t.isEmpty then some 0
  else
    let sign : ℚ := if t.headD ' ' == '-' then -1 else 1
    let body := if t.headD ' ' == '-' || t.headD ' ' == '+' then t.drop 1 else t
    let ip := body.takeWhile (fun c => c != '.')
    let rest := body.dropWhile (fun c => c != '.')
    let fp := rest.drop 1
    if body.isEmpty then none
    else if !(ip.all Char.isDigit) || !(fp.all Char.isDigit) then none
    else if rest.length == 1 && fp.isEmpty && ip.isEmpty then none
    else if ip.isEmpty && fp.isEmpty then none
    else if rest.length > 1 && fp.isEmpty then none
    else some (sign * ((digitsVal ip : ℚ) + (digitsVal fp : ℚ) / ((10 : ℚ) ^ fp.length)))

mutual

/-- ToString. -/
def jsToString : JVal → List Char
  | .vStr s => s
  | .vNum q => numToStr q
  | .vNaN => "NaN".data
  | .vBool b => if b then "true".data else "false".data
  | .vNull => "null".data
  | .vUndef => "undefined".data
  | .vArr l => jsJoinComma l
  | .vObj _ => "[object Object]".data
termination_by structural v => v

/-- Array.prototype.join with the default separator
(null and undefined elements render as empty). -/
def jsJoinComma : List JVal → List Char
  | [] => []
  | [x] => (match x with | .vNull => [] | .vUndef => [] | v => jsToString v)
  | x :: t =>
    (match x with | .vNull => [] | .vUndef => [] | v => jsToString v)
      ++ [','] ++ jsJoinComma t
termination_by structural l => l

end

/-- The element rendering of the default join. -/
def jsElemStr : JVal → List Char
  | .vNull => []
  | .vUndef => []
  | v => jsToString v

/-- ToNumber. -/
def toNumber : JVal → JNum
  | .vStr s => strToNum s
  | .vNum q => some q
  | .vNaN => none
  | .vBool b => some (if b then 1 else 0)
  | .vNull => some 0
  | .vUndef => none
  | .vArr [] => some 0
  | .vArr [x] =>
    match x with
    | .vArr _ => none
    | .vObj _ => none
    | v => toNumber v
  | .vArr (_ :: _ :: _) => none
  | .vObj _ => none

/-- NaN-propagating arithmetic on JS numbers. -/
def jAdd (a b : JNum) : JNum := do pure ((← a) + (← b))

def jMul (a b : JNum) : JNum := do pure ((← a) * (← b))

/-- Division; the unreachable division by zero collapses to the NaN
marker (the pipeline only ever divides by a positive count or constant). -/
def jDivQ (a b : JNum) : JNum := do
  let x ← a
  let y ← b
  if y == 0 then none else pure (x / y)

/-- Math.min (NaN if either argument is). -/
def jMin (a b : JNum) : JNum := do pure (min (← a) (← b))

/-- Math.max (NaN if either argument is). -/
def jMax (a b : JNum) : JNum := do pure (max (← a) (← b))

/-- Math.max over a spread non-empty argument list. -/
def jMaxList : List JNum → JNum
  | [] => none
  | h :: t => t.foldl jMax h

/-- The JS < on a number and a number-coerced operand (false on NaN). -/
def jLtB (a b : JNum) : Bool :=
  match a, b with
  | some x, some y => decide (x < y)
  | _, _ => false

/-- ToPrimitive as used by the + operator. -/
def jsToPrim : JVal → JVal
  | .vArr l => .vStr (jsJoinComma l)
  | .vObj _ => .vStr "[object Object]".data
  | v => v

/-- Whether a primitive is a string (for the + operator). -/
def jsPrimIsStr : JVal → Bool
  | .vStr _ => true
  | _ => false

/-- The JS binary +: string concatenation when either primitive is a
string, numeric addition otherwise. -/
def jsPlus (a b : JVal) : JVal :=
  let pa := jsToPrim a
  let pb := jsToPrim b
  if jsPrimIsStr pa || jsPrimIsStr pb then .vStr (jsToString pa ++ jsToString pb)
  else
    match jAdd (toNumber pa) (toNumber pb) with
    | some q => .vNum q
    | none => .vNaN

/-- Property read on an object model (first binding, or undefined). -/
def objGet (fields : List (List Char × JVal)) (key : List Char) : JVal :=
  match fields.find? (fun f => f.1 == key) with
  | some f => f.2
  | none => (.vUndef)

/-- x || y. -/
def jsOr (v d : JVal) : JVal := if jsTruthy v then v else d

/-- A string-method receiver: returns the string or throws TypeError,
as calling .toLowerCase / .substring / .match on a non-string would. -/
def asStrE : JVal → Except JsErr (List Char)
  | .vStr s => .ok s
  | _ => .error (.typeError "not a string".data)

/-- The .length property: a number for strings, undefined otherwise
(array receivers never occur at the uses modelled here). -/
def jsLengthNum : JVal → Option Nat
  | .vStr s => some s.length
  | _ => none

/- ### The confidence scorer: scoreMatch of src/scoreMatch.js

The dynamically built RegExps (brandRegex, contextRegex) interpolate a
brand or code into the pattern text; the embedding treats those
fragments as literal text, which is exact whenever they contain no
regex metacharacters. On a fragment with a metacharacter, such as a
parenthesis, the source instead throws a RegExp SyntaxError out of
scoreMatch; the embedding collapses that error path, so every theorem
below uses the interpolated fragments only with alphanumeric
hypotheses, with concrete alphanumeric fragments, or not at all. -/

/-- .{0,k} -/
def dotUpTo (k : Nat) : RE := reRepMax (.cls isDotChar) k

/-- .* (bounded by the input length n). -/
def dotStar (n : Nat) : RE := reRepMax (.cls isDotChar) n

/-- Does the pattern match anywhere in the string (RegExp.prototype.test)? -/
def reTestAux (re : RE) : Nat → Option Char → List Char → Bool
  | 0, _, _ => false
  | fuel + 1, prev, s =>
    !(reMatch re prev s).isEmpty ||
      (match s with
       | [] => false
       | c :: rest => reTestAux re fuel (some c) rest)

def reTest (re : RE) (s : List Char) : Bool := reTestAux re (s.length + 1) none s

/-- Does the pattern match the whole string (an anchored ^...$ test)? -/
def reTestFull (re : RE) (s : List Char) : Bool :=
  (reMatch re none s).any (fun m => m.rest.isEmpty)

/-- The six youtubePromoPatterns of calculateYouTubeContextBoost. -/
def ytPromoREs (n : Nat) : List RE :=
  [.seq .wordB (.seq (strCIRE "sponsored by".data) .wordB),
   .seq .wordB (.seq (strCIRE "thanks to".data)
     (.seq (dotStar n) (.seq (strCIRE "for sponsoring".data) .wordB))),
   .seq .wordB (.seq (strCIRE "use my code".data) .wordB),
   .seq .wordB (.seq (strCIRE "exclusive".data)
     (.seq (dotStar n) (.seq (strCIRE "code".data) .wordB))),
   .seq .wordB (.seq (strCIRE "special offer".data) .wordB),
   .seq .wordB (.seq (strCIRE "link".data)
     (.seq (dotStar n) (.seq (strCIRE "description".data) .wordB)))]

/-- brandRegex: \b{brand}\b.{0,50}\b{code}\b|\b{code}\b.{0,50}\b{brand}\b, /i. -/
def proxRE (b c : List Char) : RE :=
  .alt
    (.seq .wordB (.seq (strCIRE b) (.seq .wordB
      (.seq (dotUpTo 50) (.seq .wordB (.seq (strCIRE c) .wordB))))))
    (.seq .wordB (.seq (strCIRE c) (.seq .wordB
      (.seq (dotUpTo 50) (.seq .wordB (.seq (strCIRE b) .wordB))))))

/-- calculateYouTubeContextBoost. -/
def calculateYouTubeContextBoost (code : JVal) (rawText : List Char)
    (sponsorBrands : List JVal) : Except JsErr ℚ := do
  let lowerText := lowerStr rawText
  let cs ← asStrE code
  let lowerCode := lowerStr cs
  let b1 ← sponsorBrands.foldlM (fun acc brand => do
      let bs ← asStrE brand
      pure (acc + (if reTest (proxRE (lowerStr bs) lowerCode) lowerText
                   then (0.15 : ℚ) else 0))) (0 : ℚ)
  let b2 : ℚ :=
    (((ytPromoREs rawText.length).filter (fun re => reTest re rawText)).length : ℚ) * 0.05
  pure (min (b1 + b2) 0.3)

/-- The === comparison of a value against a string literal. -/
def jsEqStr (v : JVal) (s : String) : Bool :=
  match v with
  | .vStr t => t == s.data
  | _ => false

/-- calculateYouTubePatternBoost. -/
def calculateYouTubePatternBoost (code : JVal)
    (videoMetadata : List (List Char × JVal)) : Except JsErr ℚ := do
  let cn := objGet videoMetadata "channelName".data
  let b1 : ℚ ←
    (if jsTruthy cn then do
      let cns ← asStrE cn
      let channelName := lowerStr cns
      let cs ← asStrE code
      let codeStart := lowerStr (cs.take 4)
      pure (if strContains channelName codeStart
              || strContains codeStart (channelName.take 4)
            then (0.1 : ℚ) else 0)
     else pure (0 : ℚ))
  let cat := objGet videoMetadata "category".data
  let b2 : ℚ :=
    if jsEqStr cat "Science & Technology" || jsEqStr cat "Gaming" || jsEqStr cat "Education"
    then 0.05 else 0
  pure (b1 + b2)

/-- calculateYouTubeBonuses (the rawText parameter of the source is
unused by its body). -/
def calculateYouTubeBonuses (codes : List JVal) (rawText : List Char)
    (videoMetadata : List (List Char × JVal)) : Except JsErr ℚ := do
  let prefx ← codes.mapM (fun c => do pure ((← asStrE c).take 3))
  let b1 : ℚ := if 2 ≤ (dedupKeepFirst prefx).length then 0.05 else 0
  let b2 : ℚ :=
    if jLtB (some 100000) (toNumber (objGet videoMetadata "subscriberCount".data))
    then 0.03 else 0
  pure (min (b1 + b2) 0.08)

/-- The three sponsorSegmentPatterns of calculateYouTubeCoherence. -/
def sponsorSegREs (n : Nat) : List RE :=
  [.seq .wordB (.seq (altRE
      [strCIRE "but first".data,
       .seq (strCIRE "before we".data) (dotStar n),
       strCIRE "speaking of".data,
       .seq (strCIRE "this video".data) (.seq (dotStar n) (strCIRE "sponsored".data))])
    .wordB),
   .seq .wordB (.seq (altRE
      [strCIRE "huge thanks".data,
       strCIRE "special thanks".data,
       .seq (strCIRE "thanks to".data) (.seq (dotStar n) (strCIRE "sponsor".data))])
    .wordB),
   .seq .wordB (.seq (altRE
      [strCIRE "check out".data, strCIRE "visit".data,
       strCIRE "head to".data, strCIRE "go to".data])
    (.seq (dotStar n) (.seq (strCIRE "link".data)
      (.seq (dotStar n) (.seq (strCIRE "description".data) .wordB)))))]

/-- calculateYouTubeCoherence (only rawText influences the result). -/
def calculateYouTubeCoherence (codes : List JVal) (rawText : List Char)
    (videoMetadata : List (List Char × JVal)) : ℚ :=
  min ((((sponsorSegREs rawText.length).filter (fun re => reTest re rawText)).length : ℚ)
    * 0.02) 0.07

/-- detectYouTubeSuspiciousPatterns. -/
def detectYouTubeSuspiciousPatterns (codes : List JVal) (rawText : List Char) :
    Except JsErr (List (List Char)) := do
  let prefx ← codes.mapM (fun c => do pure ((← asStrE c).take 3))
  let s1 : List (List Char) :=
    if 3 < codes.length && (dedupKeepFirst prefx).length == 1
    then ["duplicate_pattern_spam".data] else []
  let s2 ← codes.foldlM (fun acc code => do
      let cs ← asStrE code
      pure (if strContains (lowerStr rawText) (lowerStr cs) then acc
            else acc ++ ["orphaned_code_".data ++ cs])) ([] : List (List Char))
  pure (s1 ++ s2)

/-- /^(.)\1+$/: at least two copies of one (non-line-break) character. -/
def isRepeatedChar (s : List Char) : Bool :=
  match s with
  | c :: rest => !rest.isEmpty && isDotChar c && rest.all (fun x => x == c)
  | [] => false

/-- A letter of either case ([A-Z] under /i). -/
def isLetterCI (c : Char) : Bool := c.isUpper || c.isLower

/-- The three youtubePatterns of assessYouTubeCodeQuality (anchored). -/
def ytQualityREs (n : Nat) : List RE :=
  [.seq (altRE (List.map (fun w => strCIRE w.data)
      ["SAVE", "GET", "NEW", "FIRST", "WELCOME", "PROMO", "DEAL", "OFF"]))
    (reRep (.cls Char.isDigit) 1 n),
   .seq (reRep (.cls isLetterCI) 2 6) (reRep (.cls Char.isDigit) 1 4),
   .seq (altRE (List.map (fun w => strCIRE w.data) ["TECH", "GAME", "REVIEW", "VIDEO"]))
    (reRep (.cls isWordChar) 1 n)]

/-- contextRegex of assessYouTubeCodeQuality (the code fragment literal). -/
def ctxRE (code : List Char) : RE :=
  .alt
    (.seq (altRE (List.map (fun w => strCIRE w.data)
        ["use", "code", "promo", "discount", "save", "offer"]))
      (.seq (dotUpTo 20) (.seq .wordB (.seq (strCIRE code) .wordB))))
    (.seq .wordB (.seq (strCIRE code) (.seq .wordB
      (.seq (dotUpTo 20) (altRE (List.map (fun w => strCIRE w.data)
        ["off", "discount", "save", "deal"]))))))

/-- The falsePositives word alternation of assessYouTubeCodeQuality
(duplicates of the source kept; membership is what matters). -/
def falsePositiveWords : List (List Char) :=
  (["AND", "THE", "FOR", "YOU", "GET", "NOW", "NEW", "ALL", "OUT", "OFF", "BUY", "TOP", "SEE",
    "USE", "TRY", "YES", "WAY", "DAY", "TIME", "LIKE", "JUST", "ONLY", "MORE", "BEST", "GOOD",
    "GREAT", "VERY", "MUCH", "WELL", "BACK", "OVER", "HERE", "THERE", "WHEN", "WHERE", "WHAT",
    "THIS", "THAT", "THEY", "THEM", "WILL", "WITH", "FROM", "HAVE", "BEEN", "WERE", "SAID",
    "EACH", "WHICH", "THEIR", "WOULD", "THERE", "COULD", "OTHER", "AFTER", "FIRST", "NEVER",
    "THESE", "THINK", "WHERE", "BEING", "EVERY", "GREAT", "MIGHT", "SHALL", "WHILE", "THOSE",
    "CAME", "RIGHT", "STILL", "SMALL", "LARGE", "FOUND", "AGAIN", "PLACE", "SOUND", "YEARS",
    "WORLD", "BELOW", "LATER", "OFTEN", "ASKED", "ORDER", "HOUSE", "POINT", "ROUND", "BUILD",
    "MONEY", "EARLY", "VOICE", "WORDS", "WATER", "WHITE", "LIGHT", "NIGHT", "HEART", "POWER",
    "MUSIC", "STORY", "COURT", "PIECE", "SPACE", "BOARD", "TOTAL", "BLACK", "HUMAN", "PARTY",
    "TRADE", "STAFF", "STYLE", "CHIEF", "CLASS", "PEACE", "STATE", "STUDY", "LEVEL", "LOCAL",
    "TODAY", "VALUE", "WOMAN", "UNION", "FIELD", "SENSE", "MARCH", "SOUTH", "FRONT", "THIRD",
    "BREAK", "ISSUE", "PAPER", "PRESS", "LEARN", "TABLE", "PRICE", "SERVE", "GROUP", "SHARE",
    "WHOLE", "HORSE", "NORTH", "CIVIL", "ADDED", "AHEAD", "USUAL", "DRIVE", "ROUND", "HAPPY",
    "FINAL", "FORCE", "PLAIN", "CLEAR", "SEVEN", "SHALL", "SWEET", "CHILD", "FINAL", "PLANT",
    "SOLID", "TOUGH", "ROUGH", "EXACT", "PLAIN", "BLANK", "BROWN", "CROWD", "DRAWN", "FRUIT",
    "BOUND", "CHIEF", "CLEAN", "CLOSE", "EXACT", "EVERY", "FAITH", "BASIC", "ABOVE", "ALIVE",
    "ALONE", "ALONG", "ANGRY", "APART", "APART", "AWARE", "BADLY", "BELOW", "BRIEF", "BROAD",
    "CHEAP", "CIVIL", "CRAZY", "DAILY", "DIRTY", "EARLY", "EMPTY", "EQUAL", "EXACT", "EXTRA",
    "FALSE", "FRESH", "FULLY", "FUNNY", "GRAND", "GREAT", "GREEN", "GROSS", "HAPPY", "HEAVY",
    "HUMAN", "IDEAL", "INNER", "JOINT", "KNOWN", "LARGE", "LATER", "LEGAL", "LEVEL", "LIGHT",
    "LOOSE", "LUCKY", "MAGIC", "MAJOR", "MINOR", "MIXED", "MORAL", "NAKED", "NASTY", "NAVAL",
    "OTHER", "OUTER", "PLAIN", "PRIME", "PRIOR", "PROUD", "QUICK", "QUIET", "RAPID", "READY",
    "RIGHT", "ROMAN", "ROUGH", "ROUND", "ROYAL", "RURAL", "SHARP", "SHINY", "SHORT", "SILLY",
    "SIXTH", "SMALL", "SMART", "SOLID", "SORRY", "SPARE", "SPLIT", "STEEP", "STILL", "SUPER",
    "SWEET", "THICK", "THIRD", "TIGHT", "TOTAL", "TOUGH", "TRULY", "TWICE", "UNDER", "UNDUE",
    "UNION", "UPPER", "URBAN", "USED", "USUAL", "VALID", "VITAL", "WHITE", "WHOLE", "WORTH",
    "WRONG", "YOUNG"] : List String).map String.data

/-- The quality body of assessYouTubeCodeQuality on a non-empty string. -/
def assessQualityStr (code : List Char) (rawText : List Char) : ℚ :=
  let lenB : ℚ :=
    if 4 ≤ code.length ∧ code.length ≤ 10 then 0.25
    else if code.length = 3 ∨ code.length ≤ 12 then 0.1 else 0
  let hasN := code.any Char.isDigit
  let hasL := code.any isLetterCI
  let chB : ℚ := if hasN && hasL then 0.2 else if hasN || hasL then 0.1 else 0
  let patB : ℚ :=
    (((ytQualityREs code.length).filter (fun re => reTestFull re code)).length : ℚ) * 0.15
  let ctxB : ℚ := if !rawText.isEmpty && reTest (ctxRE code) rawText then 0.1 else 0
  let fpP : ℚ := if falsePositiveWords.contains (upperStr code) then 0.4 else 0
  let repP : ℚ := if isRepeatedChar code then 0.5 else 0
  max 0 (min (0.4 + lenB + chB + patB + ctxB - fpP - repP) 1)

/-- assessYouTubeCodeQuality (guards falsy and non-string codes;
videoMetadata is accepted but unused by the source body). -/
def assessYouTubeCodeQuality (code : JVal) (rawText : List Char)
    (videoMetadata : List (List Char × JVal)) : ℚ :=
  match code with
  | .vStr s => if s.isEmpty then 0 else assessQualityStr s rawText
  | _ => 0

/-- /\b(deal|discount|promo|coupon|offer|sale|ref=|utm_|aff)/i. -/
def linkPromoRE : RE :=
  .seq .wordB (altRE (List.map (fun w => strCIRE w.data)
    ["deal", "discount", "promo", "coupon", "offer", "sale", "ref=", "utm_", "aff"]))

/-- The generic suspicious-code test of the penalties section; the
final code.match call throws on a non-string receiver, the earlier
regexp tests coerce their argument. -/
def suspGenericJ (code : JVal) : Except JsErr Bool :=
  let lenLt : Bool := match jsLengthNum code with | some n => decide (n < 4) | none => false
  let lenGt : Bool := match jsLengthNum code with | some n => decide (15 < n) | none => false
  let s := jsToString code
  if lenLt || lenGt then .ok true
  else if !s.isEmpty && s.all Char.isDigit then .ok true
  else if 1 ≤ s.length && s.length ≤ 3 && s.all Char.isUpper then .ok true
  else do
    let t ← asStrE code
    .ok (isRepeatedChar t)

/-- The input record of scoreMatch (destructured parameter object);
absent properties are undefined. -/
structure ScoreArgs where
  codes : JVal := .vUndef
  links : JVal := .vUndef
  percent_off : JVal := .vUndef
  flat_discount : JVal := .vUndef
  codeConfidence : JVal := .vUndef
  rawText : JVal := .vUndef
  videoMetadata : JVal := .vUndef
  sponsorBrands : JVal := (.vUndef)

/-- Destructuring default plus the Array.isArray guard: any non-array
(including the undefined default) becomes []. -/
def coerceArr : JVal → List JVal
  | .vArr l => l
  | _ => []

/-- Destructuring default plus the typeof-string guard. -/
def coerceStr : JVal → List Char
  | .vStr s => s
  | _ => []

/-- Destructuring default plus the typeof-object / null guard
(an array is typeof object and is kept, with index keys). -/
def coerceObjFields : JVal → List (List Char × JVal)
  | .vObj f => f
  | .vArr l => ((List.range l.length).zip l).map (fun p => (natToStr p.1, p.2))
  | _ => []

/-- scoreMatch of src/scoreMatch.js. The returned value is the final
score (NaN modelled as none); a thrown TypeError is an error result.
Additions of 0 for skipped sections keep the accumulation shape of the
source without changing any value. -/
def scoreMatchJ (args : ScoreArgs) : Except JsErr JNum := do
  let codes := coerceArr args.codes
  let links := coerceArr args.links
  let percent_off := coerceArr args.percent_off
  let flat_discount := coerceArr args.flat_discount
  let codeConfidence := coerceObjFields args.codeConfidence
  let rawText := coerceStr args.rawText
  let videoMetadata := coerceObjFields args.videoMetadata
  let sponsorBrands := coerceArr args.sponsorBrands
  -- 1. primary code scoring (0.65 cap)
  let codeContrib : JNum ←
    (if 0 < codes.length then
      (if 0 < codeConfidence.length then do
        let enhanced ← codes.mapM (fun code => do
          let baseConfidence := jsOr (objGet codeConfidence (jsToString code)) (.vNum 0.3)
          let contextBoost ← calculateYouTubeContextBoost code rawText sponsorBrands
          let patternBoost ← calculateYouTubePatternBoost code videoMetadata
          pure (jMin (some 1) (toNumber
            (jsPlus (jsPlus baseConfidence (.vNum contextBoost)) (.vNum patternBoost)))))
        let maxConfidence := jMaxList enhanced
        let avgConfidence := jDivQ (enhanced.foldl jAdd (some 0)) (some (codes.length : ℚ))
        let weightedConfidence :=
          jAdd (jMul maxConfidence (some 0.75)) (jMul avgConfidence (some 0.25))
        let youtubeBonus ← calculateYouTubeBonuses codes rawText videoMetadata
        pure (jMin (jAdd (jMul weightedConfidence (some 0.65)) (some youtubeBonus)) (some 0.65))
      else do
        let qualityScores := codes.map (fun c => assessYouTubeCodeQuality c rawText videoMetadata)
        let avgQuality : ℚ := qualityScores.sum / (codes.length : ℚ)
        let base : ℚ := avgQuality * 0.55
        let withBonus : ℚ :=
          if 2 ≤ codes.length then base + min 0.1 ((codes.length : ℚ) * 0.02) else base
        pure (some (min withBonus 0.65) : JNum))
     else pure (some 0 : JNum))
  -- 2. sponsor context scoring (0.2 cap)
  let s1 : ℚ :=
    if 0 < sponsorBrands.length then min 0.15 ((sponsorBrands.length : ℚ) * 0.05) else 0
  let s2 : JNum :=
    if 0 < percent_off.length then
      let maxDiscount := jMaxList (percent_off.map toNumber)
      let discountWeight := jMin (some 1) (jDivQ maxDiscount (some 50))
      jMin (some 0.1) (jMul (some 0.1) discountWeight)
    else some 0
  let s3 : ℚ := if 0 < flat_discount.length then 0.05 else 0
  let sponsorContrib := jMin (jAdd (jAdd (some s1) s2) (some s3)) (some 0.2)
  -- 3. link quality scoring (0.1 cap)
  let sponsorLinks ← links.filterM (fun link => do
      let viaBrand ← sponsorBrands.anyM (fun brand => do
          let ll ← asStrE link
          let bb ← asStrE brand
          pure (strContains (lowerStr ll) (lowerStr bb)))
      pure (viaBrand || reTest linkPromoRE (jsToString link)))
  let linkScore : ℚ :=
    if 0 < sponsorLinks.length then 0.1 else if 0 < links.length then 0.03 else 0
  let linkContrib : ℚ := min linkScore 0.1
  -- 4. coherence bonus (0.15 cap)
  let c1 : ℚ :=
    if 0 < codes.length ∧ (0 < percent_off.length ∨ 0 < flat_discount.length)
       ∧ 0 < sponsorBrands.length then 0.08
    else if 0 < codes.length ∧ (0 < percent_off.length ∨ 0 < flat_discount.length) then 0.05
    else 0
  let cohContrib : ℚ :=
    min (c1 + calculateYouTubeCoherence codes rawText videoMetadata) 0.15
  -- 5. quality penalties
  let penalties : ℚ ←
    (if 0 < codes.length then do
      let suspiciousPatterns ← detectYouTubeSuspiciousPatterns codes rawText
      let p1 : ℚ :=
        if 0 < suspiciousPatterns.length
        then min 0.15 ((suspiciousPatterns.length : ℚ) * 0.05) else 0
      let suspiciousCodes ← codes.filterM suspGenericJ
      let p2 : ℚ :=
        if 0 < suspiciousCodes.length
        then min 0.1 ((suspiciousCodes.length : ℚ) * 0.03) else 0
      pure (p1 + p2)
     else pure (0 : ℚ))
  let total :=
    jAdd (jAdd (jAdd (jAdd codeContrib sponsorContrib) (some linkContrib)) (some cohContrib))
      (some (-penalties))
  pure (jMax (some 0) (jMin total (some 1)))

/- ### The escalation controller

EnhancedAIPostProcessor.processResult of src/aiPostProcessor.js and the
status decision of the SmartFetch class of
src/SmartFetchExtension/offscreen.js. The network call and the
rate-limited queue are the external secondary-scorer collaborator: one
escalation is modelled by its outcome (a transport error / timeout
rejection, or a response body given as parsed JSON, since JSON.parse is
an external primitive). The failure log file is modelled as the list of
appended entries, and clock reads are parameters. -/

/-- A typed extraction result entering post-processing. -/
structure ExtractionResult where
  codes : List (List Char)
  links : List (List Char)
  percent_off : List ℚ
  flat_discount : List ℚ
  confidence : ℚ
deriving Repr, DecidableEq

/-- The configuration of EnhancedAIPostProcessor that processResult
reads (enabled and threshold). -/
structure AIConfig where
  enabled : Bool
  threshold : ℚ
deriving Repr, DecidableEq

/-- shouldProcess: enabled, a numeric confidence (always true of the
typed result), and confidence below the AI threshold. -/
def shouldProcess (cfg : AIConfig) (result : ExtractionResult) : Bool :=
  cfg.enabled && decide (result.confidence < cfg.threshold)

/-- The data generatePrompt interpolates into its prompt template: the
extracted fields, the current confidence and the first 800 characters
of the original text (the surrounding template text is constant). -/
structure Prompt where
  codes : List (List Char)
  percent_off : List ℚ
  flat_discount : List ℚ
  links : List (List Char)
  confidence : ℚ
  excerpt : List Char
deriving Repr, DecidableEq

def generatePrompt (result : ExtractionResult) (originalText : List Char) : Prompt :=
  { codes := result.codes
    percent_off := result.percent_off
    flat_discount := result.flat_discount
    links := result.links
    confidence := result.confidence
    excerpt := originalText.take 800 }

/-- The body of a secondary-scorer response: either text that is not
JSON at all (after the code-fence stripping), or its parsed JSON value.
JSON.parse output never contains NaN or undefined. -/
inductive AIResp where
  | malformedJson : AIResp
  | jsonVal (v : JVal) : AIResp

/-- The validated response record built by parseAIResponse. -/
structure ParsedAI where
  confidence : ℚ
  reasoning : JVal
  validCodes : List JVal
  isPromotional : Bool
  recommendation : JVal

/-- parseAIResponse: none models the null of the catch branch (JSON
syntax error, or a missing / non-number / out-of-range confidence). -/
def parseAIResponse (resp : AIResp) : Option ParsedAI :=
  match resp with
  | .malformedJson => none
  | .jsonVal v =>
    let fields := match v with | .vObj f => f | _ => []
    match objGet fields "confidence".data with
    | .vNum c =>
      if c < 0 ∨ 1 < c then none
      else some
        { confidence := c
          reasoning := jsOr (objGet fields "reasoning".data) (.vStr "No reasoning provided".data)
          validCodes := match objGet fields "validCodes".data with | .vArr l => l | _ => []
          isPromotional := jsTruthy (objGet fields "isPromotional".data)
          recommendation := jsOr (objGet fields "recommendation".data) (.vStr "review".data) }
    | _ => none

/-- One record appended by FailureTracker.logFailure. -/
structure FailureEntry where
  videoId : List Char
  prompt : Prompt
  error : List Char
  timestamp : List Char
  retryCount : Nat
  metaConfidence : ℚ
deriving Repr, DecidableEq

/-- The outcome of one escalation call: a rejection (transport error,
HTTP error status, or the timeout abort) or a response body. -/
inductive CallOutcome where
  | callError (msg : List Char) : CallOutcome
  | callOk (resp : AIResp) : CallOutcome

/-- The record processResult returns: the spread of the input result
plus the AI fields (absent on the unenhanced paths). -/
structure PostResult where
  codes : List (List Char)
  links : List (List Char)
  percent_off : List ℚ
  flat_discount : List ℚ
  confidence : ℚ
  aiEnhanced : Bool
  aiReasoning : Option JVal
  aiValidCodes : Option (List JVal)
  aiRecommendation : Option JVal
  originalConfidence : Option ℚ

/-- A result returned unchanged (the AI fields absent; an absent
aiEnhanced reads as undefined, hence falsy). -/
def toPostResult (r : ExtractionResult) : PostResult :=
  { codes := r.codes, links := r.links, percent_off := r.percent_off
    flat_discount := r.flat_discount, confidence := r.confidence
    aiEnhanced := false, aiReasoning := none, aiValidCodes := none
    aiRecommendation := none, originalConfidence := none }

/-- Array.prototype.includes of a string element (=== on strings). -/
def jsIncludesStr (l : List JVal) (c : List Char) : Bool :=
  l.any (fun v => match v with | .vStr t => t == c | _ => false)

/-- EnhancedAIPostProcessor.processResult. The pair carries the failure
log alongside the returned record; now is the timestamp a failure entry
would record. -/
def processResult (cfg : AIConfig) (result : ExtractionResult)
    (originalText videoId : List Char) (outcome : CallOutcome)
    (log : List FailureEntry) (now : List Char) : PostResult × List FailureEntry :=
  if !(shouldProcess cfg result) then (toPostResult result, log)
  else
    match outcome with
    | .callError msg =>
      (toPostResult result,
       log ++ [⟨videoId, generatePrompt result originalText, msg, now, 0, result.confidence⟩])
    | .callOk resp =>
      match parseAIResponse resp with
      | some aiResult =>
        ({ codes :=
             if 0 < aiResult.validCodes.length
             then result.codes.filter (fun code => jsIncludesStr aiResult.validCodes code)
             else result.codes
           links := result.links
           percent_off := result.percent_off
           flat_discount := result.flat_discount
           confidence := aiResult.confidence
           aiEnhanced := true
           aiReasoning := some aiResult.reasoning
           aiValidCodes := some aiResult.validCodes
           aiRecommendation := some aiResult.recommendation
           originalConfidence := some result.confidence }, log)
      | none =>
        (toPostResult result,
         log ++ [⟨videoId, generatePrompt result originalText,
                  "Failed to parse AI response".data, now, 0, result.confidence⟩])

/- ### The SmartFetch status decision (src/SmartFetchExtension/offscreen.js) -/

inductive Status where
  | accepted : Status
  | needs_review : Status
  | rejected : Status
deriving Repr, DecidableEq

/-- The || defaulting of the constructor: an absent or zero (falsy)
configured value falls back to the default. -/
def orDefaultQ (v : Option ℚ) (d : ℚ) : ℚ :=
  match v with
  | some x => if x == 0 then d else x
  | none => d

/-- The three thresholds of the SmartFetch config. -/
structure SFConfig where
  acceptThreshold : ℚ
  reviewThreshold : ℚ
  aiThreshold : ℚ
deriving Repr, DecidableEq

/-- The constructor defaults: acceptThreshold 0.6, reviewThreshold 0.3,
aiThreshold 0.4. -/
def mkSFConfig (a r ai : Option ℚ) : SFConfig :=
  ⟨orDefaultQ a 0.6, orDefaultQ r 0.3, orDefaultQ ai 0.4⟩

/-- SmartFetch.determineStatus. -/
def determineStatus (cfg : SFConfig) (confidence : ℚ) : Status :=
  if cfg.acceptThreshold ≤ confidence then .accepted
  else if cfg.reviewThreshold ≤ confidence then .needs_review
  else .rejected

/-- The record SmartFetch.processTranscript returns (its result spread
plus the decided status; aiEnhanced is finalResult.aiEnhanced || false). -/
structure FinalResult where
  res : PostResult
  status : Status
  aiEnhanced : Bool

/-- The post-extraction core of SmartFetch.processTranscript: escalate
through the AI processor iff AI is available and the heuristic
confidence is below aiThreshold, then decide the status of the final
confidence with determineStatus. -/
def processTranscriptCore (cfg : SFConfig) (aiAvailable : Bool) (aiCfg : AIConfig)
    (regexResult : ExtractionResult) (originalText videoId : List Char)
    (outcome : CallOutcome) (log : List FailureEntry) (now : List Char) :
    FinalResult × List FailureEntry :=
  let step :=
    if aiAvailable && decide (regexResult.confidence < cfg.aiThreshold)
    then processResult aiCfg regexResult originalText videoId outcome log now
    else (toPostResult regexResult, log)
  (⟨step.1, determineStatus cfg step.1.confidence, step.1.aiEnhanced⟩, step.2)

/- ### extractFromTranscript of src/textExtract.js -/

/-- extractCodes of src/textExtract.js with its input guard
(!text, a non-string, or whitespace-only text short-circuits). -/
def extractCodesJ (text : JVal) : Extraction :=
  match text with
  | .vStr s => if !s.isEmpty && !(jsTrim s).isEmpty then extractCodesCore s else emptyExtraction
  | _ => emptyExtraction

/-- The spread of an extraction result as a scoreMatch argument object
(codeConfidence, rawText, videoMetadata, sponsorBrands absent). -/
def extractionToScoreArgs (e : Extraction) : ScoreArgs :=
  { codes := .vArr (e.codes.map .vStr)
    links := .vArr (e.links.map .vStr)
    percent_off := .vArr (e.percent_off.map .vNum)
    flat_discount := .vArr (e.flat_discount.map .vNum) }

instance : DecidableEq JNum := inferInstanceAs (DecidableEq (Option ℚ))

instance : DecidableEq (Except JsErr JNum) := fun a b =>
  match a, b with
  | .ok x, .ok y => decidable_of_iff (x = y) (by simp)
  | .error x, .error y => decidable_of_iff (x = y) (by simp)
  | .ok _, .error _ => isFalse (fun h => Except.noConfusion h)
  | .error _, .ok _ => isFalse (fun h => Except.noConfusion h)

/-- The record extractFromTranscript resolves with. The confidence is a
JS number (the catch branch turns a scorer throw into 0; a NaN score
would pass through, though the typed extraction output cannot produce
one). -/
structure TranscriptResult where
  links : List (List Char)
  codes : List (List Char)
  percent_off : List ℚ
  flat_discount : List ℚ
  confidence : JNum
deriving DecidableEq

/-- The zero-confidence empty result of the input guards. -/
def emptyTranscriptResult : TranscriptResult := ⟨[], [], [], [], some 0⟩

/-- extractFromTranscript of src/textExtract.js: validate the lines
array, join the valid lines, extract, then score (0 when the scorer
throws). -/
def extractFromTranscriptB (transcriptLines : JVal) : TranscriptResult :=
  match transcriptLines with
  | .vArr lines =>
    let validLines := lines.filterMap (fun l =>
      match l with
      | .vStr s => if !s.isEmpty && !(jsTrim s).isEmpty then some s else none
      | _ => none)
    if validLines.isEmpty then emptyTranscriptResult
    else
      let fullText := List.intercalate [' '] validLines
      let r := extractCodesJ (.vStr fullText)
      let score : JNum :=
        match scoreMatchJ (extractionToScoreArgs r) with
        | .ok v => v
        | .error _ => some 0
      ⟨r.links, r.codes, r.percent_off, r.flat_discount, score⟩
  | _ => emptyTranscriptResult

/- ### Well-typed scorer inputs

The scorer is dynamically typed; the typed argument record below
injects into the JS value model, and the rational-level mirror of the
computation is proved equal to the scorer run (the bridge theorem), so
boundedness and monotonicity can be settled by arithmetic. -/

/-- The videoMetadata fields the scorer reads, well-typed. -/
structure TypedVM where
  channelName : Option (List Char) := none
  category : Option (List Char) := none
  subscriberCount : Option ℚ := none

/-- The injection of a typed videoMetadata into the object model. -/
def injectVM (vm : TypedVM) : List (List Char × JVal) :=
  (match vm.channelName with
   | some cn => [("channelName".data, JVal.vStr cn)]
   | none => [])
  ++ (match vm.category with
      | some ct => [("category".data, JVal.vStr ct)]
      | none => [])
  ++ (match vm.subscriberCount with
      | some sc => [("subscriberCount".data, JVal.vNum sc)]
      | none => [])

/-- A well-typed scorer input. -/
structure TypedArgs where
  codes : List (List Char) := []
  links : List (List Char) := []
  percent_off : List ℚ := []
  flat_discount : List ℚ := []
  codeConfidence : List (List Char × ℚ) := []
  rawText : List Char := []
  vm : TypedVM := {}
  sponsorBrands : List (List Char) := []

/-- The injection of a typed input into the scorer argument record. -/
def injectArgs (t : TypedArgs) : ScoreArgs :=
  { codes := .vArr (t.codes.map .vStr)
    links := .vArr (t.links.map .vStr)
    percent_off := .vArr (t.percent_off.map .vNum)
    flat_discount := .vArr (t.flat_discount.map .vNum)
    codeConfidence := .vObj (t.codeConfidence.map (fun p => (p.1, .vNum p.2)))
    rawText := .vStr t.rawText
    videoMetadata := .vObj (injectVM t.vm)
    sponsorBrands := .vArr (t.sponsorBrands.map .vStr) }

/-- codeConfidence[code] || 0.3 on a typed confidence table. -/
def baseConfR (cc : List (List Char × ℚ)) (code : List Char) : ℚ :=
  match cc.find? (fun p => p.1 == code) with
  | some p => if p.2 == 0 then 0.3 else p.2
  | none => 0.3

/-- calculateYouTubeContextBoost on typed input. -/
def ctxBoostR (code rawText : List Char) (brands : List (List Char)) : ℚ :=
  min
    ((brands.foldl (fun acc b =>
        acc + (if reTest (proxRE (lowerStr b) (lowerStr code)) (lowerStr rawText)
               then (0.15 : ℚ) else 0)) 0)
      + (((ytPromoREs rawText.length).filter (fun re => reTest re rawText)).length : ℚ) * 0.05)
    0.3

/-- calculateYouTubePatternBoost on typed input. -/
def patBoostR (code : List Char) (vm : TypedVM) : ℚ :=
  (match vm.channelName with
   | some cn =>
     if cn.isEmpty then 0
     else
       if strContains (lowerStr cn) (lowerStr (code.take 4))
          || strContains (lowerStr (code.take 4)) ((lowerStr cn).take 4)
       then (0.1 : ℚ) else 0
   | none => 0)
  + (if (match vm.category with
         | some ct => (ct == "Science & Technology".data)
             || (ct == "Gaming".data) || (ct == "Education".data)
         | none => false)
     then (0.05 : ℚ) else 0)

/-- calculateYouTubeBonuses on typed input. -/
def bonusesR (codes : List (List Char)) (vm : TypedVM) : ℚ :=
  min
    ((if 2 ≤ (dedupKeepFirst (codes.map (fun c => c.take 3))).length then (0.05 : ℚ) else 0)
      + (if (match vm.subscriberCount with
             | some sc => decide ((100000 : ℚ) < sc)
             | none => false)
         then (0.03 : ℚ) else 0))
    0.08

/-- The enhanced per-code confidence on typed input. -/
def enhConfR (cc : List (List Char × ℚ)) (code rawText : List Char)
    (brands : List (List Char)) (vm : TypedVM) : ℚ :=
  min 1 (baseConfR cc code + ctxBoostR code rawText brands + patBoostR code vm)

/-- Math.max over a non-empty spread of rationals. -/
def maxListR : List ℚ → ℚ
  | [] => 0
  | h :: t => t.foldl max h

/-- The suspicious-code list length of detectYouTubeSuspiciousPatterns
on typed input. -/
def detectLenR (codes : List (List Char)) (rawText : List Char) : Nat :=
  (if 3 < codes.length ∧ (dedupKeepFirst (codes.map (fun c => c.take 3))).length = 1
   then 1 else 0)
  + (codes.filter (fun c => !(strContains (lowerStr rawText) (lowerStr c)))).length

/-- The generic suspicious-code test on a typed code. -/
def suspR (c : List Char) : Bool :=
  decide (c.length < 4) || decide (15 < c.length)
  || (!c.isEmpty && c.all Char.isDigit)
  || (decide (1 ≤ c.length) && decide (c.length ≤ 3) && c.all Char.isUpper)
  || isRepeatedChar c

/-- The scorer on well-typed input, in plain rational arithmetic. -/
def calcR (t : TypedArgs) : ℚ :=
  let codeContrib : ℚ :=
    if 0 < t.codes.length then
      if 0 < t.codeConfidence.length then
        let enhanced := t.codes.map
          (fun c => enhConfR t.codeConfidence c t.rawText t.sponsorBrands t.vm)
        let weighted := maxListR enhanced * 0.75
          + (enhanced.sum / (t.codes.length : ℚ)) * 0.25
        min (weighted * 0.65 + bonusesR t.codes t.vm) 0.65
      else
        let avgQuality : ℚ :=
          (t.codes.map (fun c =>
            if c.isEmpty then 0 else assessQualityStr c t.rawText)).sum
            / (t.codes.length : ℚ)
        let base : ℚ := avgQuality * 0.55
        min (if 2 ≤ t.codes.length
             then base + min 0.1 ((t.codes.length : ℚ) * 0.02) else base) 0.65
    else 0
  let sponsorContrib : ℚ :=
    min ((if 0 < t.sponsorBrands.length
          then min 0.15 ((t.sponsorBrands.length : ℚ) * 0.05) else 0)
      + (if 0 < t.percent_off.length
         then min 0.1 (0.1 * min 1 (maxListR t.percent_off / 50)) else 0)
      + (if 0 < t.flat_discount.length then (0.05 : ℚ) else 0)) 0.2
  let sponsorLinks := t.links.filter (fun l =>
    t.sponsorBrands.any (fun b => strContains (lowerStr l) (lowerStr b))
      || reTest linkPromoRE l)
  let linkContrib : ℚ :=
    min (if 0 < sponsorLinks.length then (0.1 : ℚ)
         else if 0 < t.links.length then 0.03 else 0) 0.1
  let cohContrib : ℚ :=
    min ((if 0 < t.codes.length ∧ (0 < t.percent_off.length ∨ 0 < t.flat_discount.length)
            ∧ 0 < t.sponsorBrands.length then (0.08 : ℚ)
          else if 0 < t.codes.length
            ∧ (0 < t.percent_off.length ∨ 0 < t.flat_discount.length) then 0.05 else 0)
      + min ((((sponsorSegREs t.rawText.length).filter
          (fun re => reTest re t.rawText)).length : ℚ) * 0.02) 0.07) 0.15
  let penalties : ℚ :=
    if 0 < t.codes.length then
      (if 0 < detectLenR t.codes t.rawText
       then min 0.15 ((detectLenR t.codes t.rawText : ℚ) * 0.05) else 0)
      + (if 0 < (t.codes.filter suspR).length
         then min 0.1 (((t.codes.filter suspR).length : ℚ) * 0.03) else 0)
    else 0
  max 0 (min (codeContrib + sponsorContrib + linkContrib + cohContrib - penalties) 1)

/- ### Bridge lemmas: running the scorer on injected typed input -/

theorem okBind {α β : Type} (a : α) (f : α → Except JsErr β) :
    (Except.ok a : Except JsErr α) >>= f = f a := rfl

theorem mapM_vStr_ok {α : Type} (f : JVal → Except JsErr α) (g : List Char → α)
    (hf : ∀ s, f (.vStr s) = .ok (g s)) (l : List (List Char)) :
    (l.map JVal.vStr).mapM f = .ok (l.map g) := by
  induction l with
  | nil => rfl
  | cons h t ih =>
    simp only [List.map_cons, List.mapM_cons, hf, okBind, ih]
    rfl

theorem filterAuxM_vStr_ok (f : JVal → Except JsErr Bool) (g : List Char → Bool)
    (hf : ∀ s, f (.vStr s) = .ok (g s)) (l : List (List Char)) :
    ∀ acc : List JVal,
      List.filterAuxM f (l.map JVal.vStr) acc
        = .ok (((l.filter g).map JVal.vStr).reverse ++ acc) := by
  induction l with
  | nil => intro acc; rfl
  | cons h t ih =>
    intro acc
    simp only [List.map_cons, List.filterAuxM, hf, okBind]
    cases hg : g h with
    | true => simp [ih, List.filter_cons, hg]
    | false => simp [ih, List.filter_cons, hg]

theorem filterM_vStr_ok (f : JVal → Except JsErr Bool) (g : List Char → Bool)
    (hf : ∀ s, f (.vStr s) = .ok (g s)) (l : List (List Char)) :
    (l.map JVal.vStr).filterM f = .ok ((l.filter g).map JVal.vStr) := by
  simp only [List.filterM, filterAuxM_vStr_ok f g hf l, okBind]
  simp [pure, Except.pure]

theorem anyM_vStr_ok (f : JVal → Except JsErr Bool) (g : List Char → Bool)
    (hf : ∀ s, f (.vStr s) = .ok (g s)) (l : List (List Char)) :
    (l.map JVal.vStr).anyM f = .ok (l.any g) := by
  induction l with
  | nil => rfl
  | cons h t ih =>
    simp only [List.map_cons, List.anyM, hf, okBind]
    cases hg : g h with
    | true => simp [hg, pure, Except.pure]
    | false => simpa [hg] using ih

theorem foldlM_vStr_ok {β : Type} (f : β → JVal → Except JsErr β) (g : β → List Char → β)
    (hf : ∀ a s, f a (.vStr s) = .ok (g a s)) (l : List (List Char)) :
    ∀ a : β, (l.map JVal.vStr).foldlM f a = .ok (l.foldl g a) := by
  induction l with
  | nil => intro a; rfl
  | cons h t ih =>
    intro a
    simp only [List.map_cons, List.foldlM_cons, hf, okBind, ih]
    rfl

theorem jAdd_some (a b : ℚ) : jAdd (some a) (some b) = some (a + b) := rfl

theorem jMul_some (a b : ℚ) : jMul (some a) (some b) = some (a * b) := rfl

theorem jMin_some (a b : ℚ) : jMin (some a) (some b) = some (min a b) := rfl

theorem jMax_some (a b : ℚ) : jMax (some a) (some b) = some (max a b) := rfl

theorem jDivQ_some (a b : ℚ) (hb : b ≠ 0) : jDivQ (some a) (some b) = some (a / b) := by
  simp [jDivQ, hb, Bind.bind, Except.bind, pure, Except.pure, Option.bind]

theorem jsPlus_vNum (a b : ℚ) : jsPlus (.vNum a) (.vNum b) = .vNum (a + b) := rfl

theorem jMaxList_foldl (l : List ℚ) (a : ℚ) :
    (l.map some).foldl jMax (some a) = some (l.foldl max a) := by
  induction l generalizing a with
  | nil => rfl
  | cons h t ih => simp only [List.map_cons, List.foldl_cons, jMax_some, ih]

theorem jMaxList_map_some (h : ℚ) (t : List ℚ) :
    jMaxList ((h :: t).map some) = some (maxListR (h :: t)) := by
  simp only [List.map_cons, jMaxList, maxListR]
  exact jMaxList_foldl t h

theorem foldl_jAdd_map_some (l : List ℚ) (a : ℚ) :
    (l.map some).foldl jAdd (some a) = some (a + l.sum) := by
  induction l generalizing a with
  | nil => simp [List.sum_nil]
  | cons h t ih =>
    simp only [List.map_cons, List.foldl_cons, jAdd_some, ih, List.sum_cons]
    ring_nf

theorem objGet_vNum_or (cc : List (List Char × ℚ)) (k : List Char) :
    jsOr (objGet (cc.map (fun p => (p.1, JVal.vNum p.2))) k) (.vNum 0.3)
      = .vNum (baseConfR cc k) := by
  simp only [objGet, baseConfR, List.find?_map]
  cases hf : cc.find? (fun p => p.1 == k) with
  | none =>
    have : cc.find? ((fun f => f.1 == k) ∘ fun p => ((p.1 : List Char), JVal.vNum p.2))
        = none := by
      simpa [Function.comp] using hf
    simp [this, jsOr, jsTruthy]
  | some p =>
    have : cc.find? ((fun f => f.1 == k) ∘ fun p => ((p.1 : List Char), JVal.vNum p.2))
        = some p := by
      simpa [Function.comp] using hf
    simp only [this, Option.map_some]
    by_cases hz : p.2 = 0
    · simp [jsOr, jsTruthy, hz]
    · simp [jsOr, jsTruthy, hz]

theorem objGet_injectVM_channelName (vm : TypedVM) :
    objGet (injectVM vm) "channelName".data
      = (match vm.channelName with | some cn => .vStr cn | none => .vUndef) := by
  rcases vm with ⟨cn, ct, sc⟩
  cases cn <;> cases ct <;> cases sc <;> rfl

theorem objGet_injectVM_category (vm : TypedVM) :
    objGet (injectVM vm) "category".data
      = (match vm.category with | some ct => .vStr ct | none => .vUndef) := by
  rcases vm with ⟨cn, ct, sc⟩
  cases cn <;> cases ct <;> cases sc <;> rfl

theorem objGet_injectVM_subscriberCount (vm : TypedVM) :
    objGet (injectVM vm) "subscriberCount".data
      = (match vm.subscriberCount with | some sc => .vNum sc | none => .vUndef) := by
  rcases vm with ⟨cn, ct, sc⟩
  cases cn <;> cases ct <;> cases sc <;> rfl

theorem ctxBoost_bridge (c rawText : List Char) (brands : List (List Char)) :
    calculateYouTubeContextBoost (.vStr c) rawText (brands.map JVal.vStr)
      = .ok (ctxBoostR c rawText brands) := by
  simp only [calculateYouTubeContextBoost, asStrE, okBind, ctxBoostR]
  rw [foldlM_vStr_ok _
    (fun acc b => acc + (if reTest (proxRE (lowerStr b) (lowerStr c)) (lowerStr rawText)
                         then (0.15 : ℚ) else 0))
    (fun a s => rfl) brands 0]
  rfl

theorem patBoost_bridge (c : List Char) (vm : TypedVM) :
    calculateYouTubePatternBoost (.vStr c) (injectVM vm) = .ok (patBoostR c vm) := by
  rcases vm with ⟨cn, ct, sc⟩
  unfold calculateYouTubePatternBoost
  rw [objGet_injectVM_channelName, objGet_injectVM_category]
  cases cn with
  | none => cases ct <;> rfl
  | some s =>
    by_cases he : s.isEmpty <;>
      cases ct <;>
        simp only [patBoostR, jsTruthy, he, Bool.not_true, Bool.not_false,
          Bool.false_eq_true, if_false, if_true, asStrE, okBind] <;>
        rfl

theorem bonuses_bridge (codes : List (List Char)) (rawText : List Char) (vm : TypedVM) :
    calculateYouTubeBonuses (codes.map JVal.vStr) rawText (injectVM vm)
      = .ok (bonusesR codes vm) := by
  rcases vm with ⟨cn, ct, sc⟩
  unfold calculateYouTubeBonuses
  rw [objGet_injectVM_subscriberCount,
    mapM_vStr_ok _ (fun s => s.take 3) (fun s => rfl) codes]
  cases sc with
  | none => rfl
  | some q => rfl

theorem foldl_filter_append {α β : Type} (p : α → Bool) (h : α → β) (l : List α) :
    ∀ acc : List β,
      l.foldl (fun acc c => if p c then acc else acc ++ [h c]) acc
        = acc ++ (l.filter (fun c => !p c)).map h := by
  induction l with
  | nil => intro acc; simp
  | cons x t ih =>
    intro acc
    by_cases hx : p x
    · simp [List.foldl_cons, hx, ih, List.filter_cons]
    · simp [List.foldl_cons, hx, ih, List.filter_cons]

theorem susp_bridge (c : List Char) : suspGenericJ (.vStr c) = .ok (suspR c) := by
  simp only [suspGenericJ, suspR, jsLengthNum, jsToString, asStrE, okBind]
  by_cases h1 : c.length < 4
  · simp [h1]
  · by_cases h2 : 15 < c.length
    · simp [h1, h2]
    · have h4 : ¬ (c.length ≤ 3) := by omega
      by_cases h3 : !c.isEmpty && c.all Char.isDigit
      · simp [h1, h2, h3, h4]
      · simp [h1, h2, h3, h4]

theorem toNumber_vNum (q : ℚ) : toNumber (.vNum q) = some q := rfl

theorem map_toNumber_vNum (l : List ℚ) :
    (l.map JVal.vNum).map toNumber = l.map some := by
  simp only [List.map_map]
  rfl

theorem detect_bridge (codes : List (List Char)) (rawText : List Char) :
    detectYouTubeSuspiciousPatterns (codes.map JVal.vStr) rawText
      = .ok ((if 3 < codes.length
                 && ((dedupKeepFirst (codes.map (fun s => s.take 3))).length == 1)
              then ["duplicate_pattern_spam".data] else [])
        ++ (codes.filter (fun s => !(strContains (lowerStr rawText) (lowerStr s)))).map
            (fun s => "orphaned_code_".data ++ s)) := by
  unfold detectYouTubeSuspiciousPatterns
  rw [mapM_vStr_ok _ (fun s => s.take 3) (fun s => rfl) codes, okBind,
    foldlM_vStr_ok _
      (fun acc s => if strContains (lowerStr rawText) (lowerStr s) then acc
                    else acc ++ ["orphaned_code_".data ++ s])
      (fun a s => rfl) codes, okBind,
    foldl_filter_append (fun s => strContains (lowerStr rawText) (lowerStr s))
      (fun s => "orphaned_code_".data ++ s) codes]
  simp [List.length_map, pure, Except.pure]

theorem detectList_length (codes : List (List Char)) (rawText : List Char) :
    ((if 3 < codes.length
         && ((dedupKeepFirst (codes.map (fun s => s.take 3))).length == 1)
      then (["duplicate_pattern_spam".data] : List (List Char)) else [])
      ++ (codes.filter (fun s => !(strContains (lowerStr rawText) (lowerStr s)))).map
          (fun s => "orphaned_code_".data ++ s)).length = detectLenR codes rawText := by
  simp only [detectLenR, List.length_append, List.length_map, apply_ite List.length]
  by_cases h : 3 < codes.length ∧ (dedupKeepFirst (codes.map fun s => s.take 3)).length = 1
  · simp [h.1, h.2]
  · rcases Decidable.not_and_iff_or_not.mp h with h1 | h1 <;> simp [h1, h]

theorem quality_map (codes : List (List Char)) (rawText : List Char)
    (vmf : List (List Char × JVal)) :
    (codes.map JVal.vStr).map (fun c => assessYouTubeCodeQuality c rawText vmf)
      = codes.map (fun s => if s.isEmpty then 0 else assessQualityStr s rawText) := by
  simp only [List.map_map]
  rfl

theorem pureEq {α : Type} (a : α) : (pure a : Except JsErr α) = Except.ok a := rfl

theorem jsToString_vStr (s : List Char) : jsToString (.vStr s) = s := by
  simp [jsToString]

theorem jMaxList_some_cons (h : ℚ) (t : List ℚ) :
    jMaxList (some h :: t.map some) = some (t.foldl max h) := jMaxList_foldl t h

theorem jMaxList_lam_foldl {α : Type} (f : α → ℚ) (t : List α) (a : ℚ) :
    (t.map (fun s => some (f s))).foldl jMax (some a) = some ((t.map f).foldl max a) := by
  induction t generalizing a with
  | nil => rfl
  | cons h tl ih => simp only [List.map_cons, List.foldl_cons, jMax_some, ih]

theorem jMaxList_lam_cons {α : Type} (f : α → ℚ) (h : α) (t : List α) :
    jMaxList (some (f h) :: t.map (fun s => some (f s)))
      = some ((t.map f).foldl max (f h)) :=
  jMaxList_lam_foldl f t (f h)

theorem foldl_jAdd_lam {α : Type} (f : α → ℚ) (t : List α) (a : ℚ) :
    (t.map (fun s => some (f s))).foldl jAdd (some a) = some (a + (t.map f).sum) := by
  induction t generalizing a with
  | nil => simp
  | cons h tl ih =>
    simp only [List.map_cons, List.foldl_cons, jAdd_some, ih, List.sum_cons]
    ring_nf

theorem foldl_jAdd_lam_cons {α : Type} (f : α → ℚ) (h : α) (t : List α) :
    List.foldl jAdd (some 0) (some (f h) :: t.map (fun s => some (f s)))
      = some (f h + (t.map f).sum) := by
  show List.foldl jAdd (jAdd (some 0) (some (f h))) (t.map (fun s => some (f s))) = _
  rw [jAdd_some, foldl_jAdd_lam]
  norm_num

theorem detect_bridge_len (codes : List (List Char)) (rawText : List Char) :
    ∃ l, detectYouTubeSuspiciousPatterns (codes.map JVal.vStr) rawText = .ok l
      ∧ l.length = detectLenR codes rawText :=
  ⟨_, detect_bridge codes rawText, detectList_length codes rawText⟩

theorem coherence_eval (codes : List JVal) (rawText : List Char)
    (vmf : List (List Char × JVal)) :
    calculateYouTubeCoherence codes rawText vmf
      = min ((((sponsorSegREs rawText.length).filter (fun re => reTest re rawText)).length : ℚ)
          * 0.02) 0.07 := rfl

theorem map_some_comp {α : Type} (f : α → ℚ) (l : List α) :
    l.map (fun s => Option.some (f s)) = (l.map f).map some := by
  simp only [List.map_map]
  rfl

theorem foldl_jAdd_map_some0 (l : List ℚ) :
    (l.map some).foldl jAdd (some 0) = some l.sum := by
  rw [foldl_jAdd_map_some]
  simp

theorem s2_bridge (percent : List ℚ) :
    (if 0 < percent.length then
       jMin (some 0.1) (jMul (some 0.1) (jMin (some 1)
         (jDivQ (jMaxList (List.map toNumber (List.map JVal.vNum percent))) (some 50))))
     else some 0)
    = some (if 0 < percent.length then
        min 0.1 (0.1 * min 1 (maxListR percent / 50)) else 0) := by
  cases percent with
  | nil => simp
  | cons p ps =>
    simp only [List.length_cons, Nat.zero_lt_succ, if_true, map_toNumber_vNum]
    rw [jMaxList_map_some, jDivQ_some _ 50 (by norm_num), jMin_some, jMul_some, jMin_some]

theorem scoreMatch_inject_eval (t : TypedArgs) :
    scoreMatchJ (injectArgs t) = .ok (some (calcR t)) := by
  rcases t with ⟨codes, links, percent, flat, cc, rt, vm, brands⟩
  unfold scoreMatchJ injectArgs calcR
  simp only [coerceArr, coerceStr, coerceObjFields, List.length_map]
  have hlink : ∀ s : List Char,
      (fun link => do
        let viaBrand ← List.anyM (fun brand => do
            let ll ← asStrE link
            let bb ← asStrE brand
            pure (strContains (lowerStr ll) (lowerStr bb))) (List.map JVal.vStr brands)
        pure (viaBrand || reTest linkPromoRE (jsToString link)) : JVal → Except JsErr Bool)
        (JVal.vStr s)
      = Except.ok ((brands.any fun b => strContains (lowerStr s) (lowerStr b))
            || reTest linkPromoRE s) := by
    intro s
    show (do
        let viaBrand ← List.anyM (fun brand => do
            let ll ← asStrE (JVal.vStr s)
            let bb ← asStrE brand
            pure (strContains (lowerStr ll) (lowerStr bb))) (List.map JVal.vStr brands)
        pure (viaBrand || reTest linkPromoRE (jsToString (JVal.vStr s)))
          : Except JsErr Bool)
      = Except.ok ((brands.any fun b => strContains (lowerStr s) (lowerStr b))
            || reTest linkPromoRE s)
    rw [anyM_vStr_ok _ (fun b => strContains (lowerStr s) (lowerStr b)) (fun b => rfl) brands,
      okBind, jsToString_vStr, pureEq]
  rw [filterM_vStr_ok _ _ hlink links, s2_bridge percent,
    coherence_eval (List.map JVal.vStr codes) rt (injectVM vm)]
  by_cases hc : 0 < codes.length
  · obtain ⟨l, hl, hlen⟩ := detect_bridge_len codes rt
    rw [hl, filterM_vStr_ok suspGenericJ suspR susp_bridge codes]
    by_cases hcc : 0 < cc.length
    · obtain ⟨c0, cs, rfl⟩ : ∃ c0 cs, codes = c0 :: cs := by
        cases codes
        · simp at hc
        · exact ⟨_, _, rfl⟩
      have hstep : ∀ s : List Char,
          (fun code => do
            let contextBoost ← calculateYouTubeContextBoost code rt (List.map JVal.vStr brands)
            let patternBoost ← calculateYouTubePatternBoost code (injectVM vm)
            pure (jMin (some 1) (toNumber (jsPlus (jsPlus
              (jsOr (objGet (List.map (fun p => (p.1, JVal.vNum p.2)) cc) (jsToString code))
                (JVal.vNum 0.3)) (JVal.vNum contextBoost)) (JVal.vNum patternBoost)))))
            (JVal.vStr s)
          = Except.ok (Option.some (enhConfR cc s rt brands vm)) := by
        intro s
        show (do
            let contextBoost ← calculateYouTubeContextBoost (JVal.vStr s) rt
              (List.map JVal.vStr brands)
            let patternBoost ← calculateYouTubePatternBoost (JVal.vStr s) (injectVM vm)
            pure (jMin (some 1) (toNumber (jsPlus (jsPlus
              (jsOr (objGet (List.map (fun p => (p.1, JVal.vNum p.2)) cc)
                  (jsToString (JVal.vStr s)))
                (JVal.vNum 0.3)) (JVal.vNum contextBoost)) (JVal.vNum patternBoost))))
              : Except JsErr JNum)
          = Except.ok (Option.some (enhConfR cc s rt brands vm))
        rw [ctxBoost_bridge s rt brands, okBind, patBoost_bridge s vm, okBind,
          jsToString_vStr, objGet_vNum_or, jsPlus_vNum, jsPlus_vNum, toNumber_vNum,
          jMin_some, pureEq]
        rfl
      rw [mapM_vStr_ok _ _ hstep (c0 :: cs), bonuses_bridge (c0 :: cs) rt vm]
      simp only [hc, hcc, if_true, okBind, List.map_cons, maxListR, List.sum_cons]
      rw [jMaxList_lam_cons (fun s => enhConfR cc s rt brands vm) c0 cs,
        foldl_jAdd_lam_cons (fun s => enhConfR cc s rt brands vm) c0 cs,
        jDivQ_some _ _ (by positivity : (((c0 :: cs).length : ℚ)) ≠ 0)]
      simp only [jMul_some, jAdd_some, jMin_some, jMax_some, List.length_map, hlen,
        List.length_cons, zero_add, pureEq, okBind]
      refine congrArg (fun q => Except.ok (some q)) ?_
      congr 1
      congr 1
      ring
    · rw [quality_map codes rt (injectVM vm)]
      simp only [hc, hcc, if_true, if_false, okBind, pureEq, jAdd_some, jMin_some, jMax_some,
        List.length_map, hlen]
      refine congrArg (fun q => Except.ok (some q)) ?_
      congr 1
      congr 1
      ring
  · simp only [hc, if_false, false_and, okBind, pureEq, jAdd_some, jMin_some, jMax_some,
      List.length_map]
    refine congrArg (fun q => Except.ok (some q)) ?_
    congr 1
    congr 1
    ring

/- ### Range bounds for the typed scorer components -/

theorem ctxBoostR_nonneg (c rawText : List Char) (brands : List (List Char)) :
    0 ≤ ctxBoostR c rawText brands := by
  unfold ctxBoostR
  refine le_min ?_ (by norm_num)
  refine add_nonneg ?_ (by positivity)
  have h : ∀ (l : List (List Char)) (a : ℚ), 0 ≤ a →
      0 ≤ l.foldl (fun acc b =>
        acc + (if reTest (proxRE (lowerStr b) (lowerStr c)) (lowerStr rawText)
               then (0.15 : ℚ) else 0)) a := by
    intro l
    induction l with
    | nil => intro a ha; simpa using ha
    | cons x xs ih =>
      intro a ha
      rw [List.foldl_cons]
      refine ih _ ?_
      have hx : (0:ℚ) ≤ (if reTest (proxRE (lowerStr x) (lowerStr c)) (lowerStr rawText)
          then (0.15:ℚ) else 0) := by positivity
      linarith
  exact h brands 0 le_rfl

theorem patBoostR_nonneg (c : List Char) (vm : TypedVM) : 0 ≤ patBoostR c vm := by
  rcases vm with ⟨cn, ct, sc⟩
  unfold patBoostR
  refine add_nonneg ?_ ?_ <;> cases cn <;> cases ct <;> dsimp <;>
    first
    | (split_ifs <;> norm_num)
    | norm_num

theorem bonusesR_bounds (codes : List (List Char)) (vm : TypedVM) :
    0 ≤ bonusesR codes vm ∧ bonusesR codes vm ≤ 0.08 := by
  unfold bonusesR
  constructor
  · refine le_min ?_ (by norm_num)
    refine add_nonneg ?_ ?_ <;> split_ifs <;> norm_num
  · exact min_le_right _ _

theorem enhConfR_ge (cc : List (List Char × ℚ)) (c rawText : List Char)
    (brands : List (List Char)) (vm : TypedVM)
    (hbase : (0.9 : ℚ) ≤ baseConfR cc c) :
    (0.9 : ℚ) ≤ enhConfR cc c rawText brands vm := by
  unfold enhConfR
  refine le_min (by norm_num) ?_
  have h1 := ctxBoostR_nonneg c rawText brands
  have h2 := patBoostR_nonneg c vm
  linarith

theorem detectLenR_single (c : List Char) (rawText : List Char) :
    detectLenR [c] rawText ≤ 1 := by
  unfold detectLenR
  have h1 : ¬(3 < ([c] : List (List Char)).length ∧
      (dedupKeepFirst (([c] : List (List Char)).map (fun s => s.take 3))).length = 1) := by
    rintro ⟨h, _⟩
    simp at h
  rw [if_neg h1]
  simpa using List.length_filter_le _ [c]

/-- A concrete scorer input for the monotonicity analysis: one registered
code CHAN1, both CHAN1 and CHAX2 registered with confidence 0.9, a raw
text containing both codes, and a channel name sharing the CHAN prefix. -/
def monoArgsBase : ScoreArgs :=
  { codes := .vArr [.vStr "CHAN1".data]
    codeConfidence := .vObj [("CHAN1".data, .vNum 0.9), ("CHAX2".data, .vNum 0.9)]
    rawText := .vStr "chan1 chax2".data
    videoMetadata := .vObj [("channelName".data, .vStr "Chandler".data)] }

/-- The same input with the valid HIGH-confidence code CHAX2 added to the
candidate set. -/
def monoArgsMore : ScoreArgs :=
  { monoArgsBase with codes := .vArr [.vStr "CHAN1".data, .vStr "CHAX2".data] }

/-- A well-typed scorer input whose code and sponsor brand are
alphanumeric, for the boundedness witness. -/
def boundedArgs : TypedArgs :=
  { codes := ["SAVE20".data]
    codeConfidence := [("SAVE20".data, 0.9)]
    rawText := "use code SAVE20 for 20% off at acme".data
    sponsorBrands := ["acme".data] }

/- ## The claims -/

/-- C1: for every confidence x and configured thresholds with
reviewThreshold ≤ acceptThreshold (the defaults are 0.6 and 0.3), the
status decision is the pure function determineStatus of x and the
thresholds, and it yields exactly one of the three statuses:
ACCEPTED iff x ≥ acceptThreshold, NEEDS_REVIEW iff
reviewThreshold ≤ x < acceptThreshold, and REJECTED iff
x < reviewThreshold. -/
theorem determineStatus_threshold_consistency (cfg : SFConfig) (x : ℚ)
    (h : cfg.reviewThreshold ≤ cfg.acceptThreshold) :
    (determineStatus cfg x = .accepted ↔ cfg.acceptThreshold ≤ x)
    ∧ (determineStatus cfg x = .needs_review ↔
        cfg.reviewThreshold ≤ x ∧ x < cfg.acceptThreshold)
    ∧ (determineStatus cfg x = .rejected ↔ x < cfg.reviewThreshold) := by
  unfold determineStatus
  split_ifs with h1 h2 <;> simp_all <;> try linarith

/-- Witness for C1 at the default thresholds and x = 0.45:
the hypothesis 0.3 ≤ 0.6 holds and the status is NEEDS_REVIEW. -/
theorem determineStatus_threshold_consistency_witness :
    (mkSFConfig none none none).reviewThreshold ≤ (mkSFConfig none none none).acceptThreshold
    ∧ determineStatus (mkSFConfig none none none) 0.45 = .needs_review :=
  ⟨by norm_num [mkSFConfig, orDefaultQ],
   ((determineStatus_threshold_consistency (mkSFConfig none none none) 0.45
      (by norm_num [mkSFConfig, orDefaultQ])).2.1).mpr
     (by norm_num [mkSFConfig, orDefaultQ])⟩

/-- C6: extract applied to the empty string, a whitespace-only string,
or null returns the empty CandidateSet; the transcript pipeline
likewise returns the empty result with confidence 0 on null, empty, or
whitespace-only line input, and the scorer yields exactly 0 on the
empty CandidateSet. All embedded functions are total, so no exception
is raised (the scorer call returns ok). -/
theorem extract_empty_input_safety :
    extractCodesJ (.vStr "".data) = emptyExtraction
    ∧ extractCodesJ (.vStr "   ".data) = emptyExtraction
    ∧ extractCodesJ .vNull = emptyExtraction
    ∧ extractFromTranscriptB .vNull = emptyTranscriptResult
    ∧ extractFromTranscriptB (.vArr []) = emptyTranscriptResult
    ∧ extractFromTranscriptB (.vArr [.vStr "".data, .vStr " \t ".data])
        = emptyTranscriptResult
    ∧ (extractFromTranscriptB (.vArr [.vStr "".data])).confidence = some 0
    ∧ scoreMatchJ (extractionToScoreArgs emptyExtraction) = .ok (some 0) := by
  decide

/-- An escalation attempt that fails: the call rejects (transport
error, HTTP error or timeout abort), or the response does not parse
(malformed JSON, or a missing / non-numeric / out-of-range confidence). -/
def escalationFailed : CallOutcome → Prop
  | .callError _ => True
  | .callOk resp => parseAIResponse resp = none

/-- The error message logged for a failing outcome. -/
def outcomeErrMsg : CallOutcome → List Char
  | .callError msg => msg
  | .callOk _ => "Failed to parse AI response".data

/-- C2: every failing escalation attempt returns the original heuristic
result unchanged (same candidates, links, discounts and confidence,
hence the same status under any thresholds) and appends exactly one
failure record carrying the source id, the request payload, the error
message and the timestamp. -/
theorem processResult_failure_fallback (cfg : AIConfig) (result : ExtractionResult)
    (originalText videoId : List Char) (outcome : CallOutcome)
    (log : List FailureEntry) (now : List Char) (sf : SFConfig)
    (hEsc : shouldProcess cfg result = true)
    (hFail : escalationFailed outcome) :
    processResult cfg result originalText videoId outcome log now =
      (toPostResult result,
       log ++ [⟨videoId, generatePrompt result originalText, outcomeErrMsg outcome, now, 0,
                result.confidence⟩])
    ∧ (processResult cfg result originalText videoId outcome log now).1.confidence
        = result.confidence
    ∧ (processResult cfg result originalText videoId outcome log now).1.codes = result.codes
    ∧ determineStatus sf
        (processResult cfg result originalText videoId outcome log now).1.confidence
      = determineStatus sf result.confidence := by
  have h1 : (!(shouldProcess cfg result)) = false := by rw [hEsc]; rfl
  cases outcome with
  | callError msg =>
    refine ⟨?_, ?_, ?_, ?_⟩ <;> simp [processResult, h1, toPostResult, outcomeErrMsg]
  | callOk resp =>
    have hp : parseAIResponse resp = none := hFail
    refine ⟨?_, ?_, ?_, ?_⟩ <;> simp [processResult, h1, hp, toPostResult, outcomeErrMsg]

/-- Witness for C2: a transport failure at confidence 0.2 under
threshold 0.4 leaves the result unchanged and logs one entry. -/
theorem processResult_failure_fallback_witness :
    shouldProcess ⟨true, 0.4⟩ ⟨["SAVE20".data], [], [], [], 0.2⟩ = true
    ∧ escalationFailed (.callError "fetch timeout".data)
    ∧ processResult ⟨true, 0.4⟩ ⟨["SAVE20".data], [], [], [], 0.2⟩ [] "vid1".data
        (.callError "fetch timeout".data) [] "2025-01-01".data =
      (toPostResult ⟨["SAVE20".data], [], [], [], 0.2⟩,
       [⟨"vid1".data, generatePrompt ⟨["SAVE20".data], [], [], [], 0.2⟩ [],
         "fetch timeout".data, "2025-01-01".data, 0, 0.2⟩]) :=
  ⟨by decide, trivial,
   (processResult_failure_fallback ⟨true, 0.4⟩ ⟨["SAVE20".data], [], [], [], 0.2⟩ [] "vid1".data
      (.callError "fetch timeout".data) [] "2025-01-01".data (mkSFConfig none none none)
      (by decide) trivial).1⟩

/-- C4: when escalation is entered (AI available and heuristic
confidence below aiThreshold) and the secondary scorer returns a
well-formed response, the final confidence equals the secondary
confidence exactly (replaced, not blended), the status is re-derived
from the new confidence by the same determineStatus thresholds, the
enhanced-by-fallback flag (aiEnhanced) is true, and no failure is
logged. -/
theorem processTranscript_escalation_replaces (cfg : SFConfig) (aiCfg : AIConfig)
    (regexResult : ExtractionResult) (originalText videoId now : List Char)
    (log : List FailureEntry) (resp : AIResp) (ai : ParsedAI)
    (hEnabled : aiCfg.enabled = true)
    (hThresh : aiCfg.threshold = cfg.aiThreshold)
    (hLow : regexResult.confidence < cfg.aiThreshold)
    (hParse : parseAIResponse resp = some ai) :
    (processTranscriptCore cfg true aiCfg regexResult originalText videoId
        (.callOk resp) log now).1.res.confidence = ai.confidence
    ∧ (processTranscriptCore cfg true aiCfg regexResult originalText videoId
        (.callOk resp) log now).1.status = determineStatus cfg ai.confidence
    ∧ (processTranscriptCore cfg true aiCfg regexResult originalText videoId
        (.callOk resp) log now).1.aiEnhanced = true
    ∧ (processTranscriptCore cfg true aiCfg regexResult originalText videoId
        (.callOk resp) log now).2 = log := by
  have hsp : shouldProcess aiCfg regexResult = true := by
    simp [shouldProcess, hEnabled, hThresh, hLow]
  have hgate : (true && decide (regexResult.confidence < cfg.aiThreshold)) = true := by
    simp [hLow]
  refine ⟨?_, ?_, ?_, ?_⟩ <;>
    simp [processTranscriptCore, hgate, processResult, hsp, hParse]

/-- Witness for C4, the concrete scenario of the spec: heuristic
confidence 0.2 with aiThreshold 0.4 and a secondary response of
confidence 0.8 yields final confidence 0.8, status ACCEPTED and
aiEnhanced true. -/
theorem processTranscript_escalation_replaces_witness :
    (⟨true, (0.4 : ℚ)⟩ : AIConfig).enabled = true
    ∧ (⟨true, (0.4 : ℚ)⟩ : AIConfig).threshold = (mkSFConfig none none none).aiThreshold
    ∧ ((⟨["SAVE20".data], [], [], [], 0.2⟩ : ExtractionResult)).confidence
        < (mkSFConfig none none none).aiThreshold
    ∧ parseAIResponse (.jsonVal (.vObj
        [("confidence".data, .vNum 0.8), ("validCodes".data, .vArr [.vStr "SAVE20".data])]))
      = some ⟨0.8, .vStr "No reasoning provided".data, [.vStr "SAVE20".data], false,
              .vStr "review".data⟩
    ∧ (processTranscriptCore (mkSFConfig none none none) true ⟨true, 0.4⟩
        ⟨["SAVE20".data], [], [], [], 0.2⟩ [] "vid1".data
        (.callOk (.jsonVal (.vObj
          [("confidence".data, .vNum 0.8), ("validCodes".data, .vArr [.vStr "SAVE20".data])])))
        [] "t".data).1.res.confidence = 0.8
    ∧ (processTranscriptCore (mkSFConfig none none none) true ⟨true, 0.4⟩
        ⟨["SAVE20".data], [], [], [], 0.2⟩ [] "vid1".data
        (.callOk (.jsonVal (.vObj
          [("confidence".data, .vNum 0.8), ("validCodes".data, .vArr [.vStr "SAVE20".data])])))
        [] "t".data).1.status = .accepted
    ∧ (processTranscriptCore (mkSFConfig none none none) true ⟨true, 0.4⟩
        ⟨["SAVE20".data], [], [], [], 0.2⟩ [] "vid1".data
        (.callOk (.jsonVal (.vObj
          [("confidence".data, .vNum 0.8), ("validCodes".data, .vArr [.vStr "SAVE20".data])])))
        [] "t".data).1.aiEnhanced = true := by
  have h := processTranscript_escalation_replaces (mkSFConfig none none none) ⟨true, 0.4⟩
    ⟨["SAVE20".data], [], [], [], 0.2⟩ [] "vid1".data "t".data []
    (.jsonVal (.vObj
      [("confidence".data, .vNum 0.8), ("validCodes".data, .vArr [.vStr "SAVE20".data])]))
    ⟨0.8, .vStr "No reasoning provided".data, [.vStr "SAVE20".data], false, .vStr "review".data⟩
    rfl (by decide) (by decide) rfl
  refine ⟨rfl, by decide, by decide, rfl, h.1, ?_, h.2.2.1⟩
  rw [h.2.1]
  decide

/-- C10: on a successful escalation the enhanced result keeps links,
percent_off and flat_discount unchanged; the codes are narrowed to the
original codes listed in validCodes only when validCodes is non-empty,
and are kept unchanged when validCodes is empty. No failure is logged. -/
theorem processResult_success_frame (cfg : AIConfig) (result : ExtractionResult)
    (originalText videoId : List Char) (resp : AIResp) (ai : ParsedAI)
    (log : List FailureEntry) (now : List Char)
    (hEsc : shouldProcess cfg result = true)
    (hParse : parseAIResponse resp = some ai) :
    (processResult cfg result originalText videoId (.callOk resp) log now).1.links
        = result.links
    ∧ (processResult cfg result originalText videoId (.callOk resp) log now).1.percent_off
        = result.percent_off
    ∧ (processResult cfg result originalText videoId (.callOk resp) log now).1.flat_discount
        = result.flat_discount
    ∧ (ai.validCodes ≠ [] →
        (processResult cfg result originalText videoId (.callOk resp) log now).1.codes
          = result.codes.filter (fun code => jsIncludesStr ai.validCodes code))
    ∧ (ai.validCodes = [] →
        (processResult cfg result originalText videoId (.callOk resp) log now).1.codes
          = result.codes)
    ∧ (processResult cfg result originalText videoId (.callOk resp) log now).2 = log := by
  have h1 : (!(shouldProcess cfg result)) = false := by rw [hEsc]; rfl
  refine ⟨?_, ?_, ?_, ?_, ?_, ?_⟩ <;> simp [processResult, h1, hParse]
  · intro hne he
    exact absurd he hne
  · intro he hlen
    rw [he] at hlen
    exact absurd hlen (by simp)

/- ### Membership through the result pipelines -/

theorem mem_addUnique {l : List (List Char)} {x y : List Char} :
    x ∈ addUnique l y ↔ x ∈ l ∨ x = y := by
  unfold addUnique
  split_ifs with hc
  · constructor
    · exact Or.inl
    · rintro (hx | rfl)
      · exact hx
      · exact hc
  · simp

theorem mem_dedupFold {l acc : List (List Char)} {x : List Char} :
    x ∈ l.foldl addUnique acc ↔ x ∈ acc ∨ x ∈ l := by
  induction l generalizing acc with
  | nil => simp
  | cons h t ih =>
    simp only [List.foldl_cons, ih, mem_addUnique, List.mem_cons]
    tauto

theorem mem_dedupKeepFirst {l : List (List Char)} {x : List Char} :
    x ∈ dedupKeepFirst l ↔ x ∈ l := by
  unfold dedupKeepFirst
  simp [mem_dedupFold]

theorem mem_addUniqueQ {l : List ℚ} {x y : ℚ} :
    x ∈ addUniqueQ l y ↔ x ∈ l ∨ x = y := by
  unfold addUniqueQ
  split_ifs with hc
  · constructor
    · exact Or.inl
    · rintro (hx | rfl)
      · exact hx
      · exact hc
  · simp

theorem mem_dedupFoldQ {l acc : List ℚ} {x : ℚ} :
    x ∈ l.foldl addUniqueQ acc ↔ x ∈ acc ∨ x ∈ l := by
  induction l generalizing acc with
  | nil => simp
  | cons h t ih =>
    simp only [List.foldl_cons, ih, mem_addUniqueQ, List.mem_cons]
    tauto

theorem mem_dedupKeepFirstQ {l : List ℚ} {x : ℚ} :
    x ∈ dedupKeepFirstQ l ↔ x ∈ l := by
  unfold dedupKeepFirstQ
  simp [mem_dedupFoldQ]

theorem mem_insertDesc {l : List ℚ} {x y : ℚ} :
    x ∈ insertDesc y l ↔ x = y ∨ x ∈ l := by
  induction l with
  | nil => simp [insertDesc]
  | cons h t ih =>
    unfold insertDesc
    split_ifs with hc <;> simp only [List.mem_cons, ih] <;> tauto

theorem mem_sortDesc {l : List ℚ} {x : ℚ} : x ∈ sortDesc l ↔ x ∈ l := by
  induction l with
  | nil => simp [sortDesc]
  | cons h t ih =>
    unfold sortDesc at ih ⊢
    simp [List.foldr_cons, mem_insertDesc, ih]

theorem mem_jsTrim {l : List Char} {c : Char} (h : c ∈ jsTrim l) : c ∈ l := by
  unfold jsTrim at h
  rw [List.mem_reverse] at h
  have h2 := (List.dropWhile_sublist (l := (l.dropWhile isWsChar).reverse) isWsChar).subset h
  rw [List.mem_reverse] at h2
  exact (List.dropWhile_sublist isWsChar).subset h2

/-- Witness for C10 at an empty validCodes list: the original codes are
kept rather than emptied. -/
theorem processResult_success_frame_witness :
    shouldProcess ⟨true, 0.4⟩ ⟨["SAVE20".data, "XYZ12".data], [], [], [], 0.2⟩ = true
    ∧ parseAIResponse (.jsonVal (.vObj [("confidence".data, .vNum 0.5),
        ("validCodes".data, .vArr [])]))
      = some ⟨0.5, .vStr "No reasoning provided".data, [], false, .vStr "review".data⟩
    ∧ (processResult ⟨true, 0.4⟩ ⟨["SAVE20".data, "XYZ12".data], [], [], [], 0.2⟩ []
        "vid1".data
        (.callOk (.jsonVal (.vObj [("confidence".data, .vNum 0.5),
          ("validCodes".data, .vArr [])]))) [] "t".data).1.codes
      = ["SAVE20".data, "XYZ12".data] := by
  have h := processResult_success_frame ⟨true, 0.4⟩
    ⟨["SAVE20".data, "XYZ12".data], [], [], [], 0.2⟩ [] "vid1".data
    (.jsonVal (.vObj [("confidence".data, .vNum 0.5), ("validCodes".data, .vArr [])]))
    ⟨0.5, .vStr "No reasoning provided".data, [], false, .vStr "review".data⟩ [] "t".data
    (by decide) rfl
  exact ⟨by decide, rfl, h.2.2.2.2.1 rfl⟩

/-- C9 counterexample: the basic extractor accepts the absurd flat
discount 99999 (> 10,000) from the input "$99999 off"; src/textExtract.js
only checks positivity, the 10,000 cap exists only in the enhanced
revision. -/
theorem flat_discount_cap_counterexample :
    (extractCodesBasic "$99999 off").flat_discount = [99999]
    ∧ (10000 : ℚ) < 99999 := by
  decide

/-- C9 amended: every percentage discount either extractor outputs lies
in (0,100]; every flat discount is positive in both, and the enhanced
extractor additionally caps flat discounts at 10,000 (its time-bonus
values are capped at 365), while the basic extractor accepts any
positive flat amount. -/
theorem extractor_discount_ranges (text : String) :
    (∀ p ∈ (extractCodesBasic text).percent_off, 0 < p ∧ p ≤ 100)
    ∧ (∀ v ∈ (extractCodesBasic text).flat_discount, 0 < v)
    ∧ (∀ p ∈ (extractCodesEnh text).percent_off, 0 < p ∧ p ≤ 100)
    ∧ (∀ v ∈ (extractCodesEnh text).flat_discount, 0 < v ∧ v ≤ 10000) := by
  refine ⟨?_, ?_, ?_, ?_⟩ <;> intro q hq
  · unfold extractCodesBasic at hq
    split_ifs at hq with hg
    · simp [emptyExtraction] at hq
    · unfold extractCodesCore at hq
      simp only [mem_sortDesc, mem_dedupKeepFirstQ, List.mem_filter] at hq
      have := hq.2
      simp only [Bool.and_eq_true, decide_eq_true_eq] at this
      exact this
  · unfold extractCodesBasic at hq
    split_ifs at hq with hg
    · simp [emptyExtraction] at hq
    · unfold extractCodesCore at hq
      simp only [mem_sortDesc, mem_dedupKeepFirstQ, List.mem_filter] at hq
      have := hq.2
      simp only [decide_eq_true_eq] at this
      exact this
  · unfold extractCodesEnh at hq
    split_ifs at hq with hg
    · simp [emptyEnhExtraction] at hq
    · unfold extractCodesEnhCore at hq
      simp only [mem_sortDesc, mem_dedupKeepFirstQ, List.mem_filter] at hq
      have := hq.2
      simp only [Bool.and_eq_true, decide_eq_true_eq] at this
      exact this
  · unfold extractCodesEnh at hq
    split_ifs at hq with hg
    · simp [emptyEnhExtraction] at hq
    · unfold extractCodesEnhCore at hq
      simp only [mem_sortDesc, mem_dedupKeepFirstQ, List.mem_append, List.mem_filter] at hq
      rcases hq with h1 | h2
      · have := h1.2
        simp only [Bool.and_eq_true, decide_eq_true_eq] at this
        exact this
      · have := h2.2
        simp only [Bool.and_eq_true, decide_eq_true_eq] at this
        exact ⟨this.1, by linarith [this.2]⟩

/-- Witness for C9 amended: the percentage 20 extracted from "20% off"
lies in (0,100]. -/
theorem extractor_discount_ranges_witness :
    (20 : ℚ) ∈ (extractCodesBasic "20% off").percent_off
    ∧ (0 < (20 : ℚ) ∧ (20 : ℚ) ≤ 100) :=
  ⟨by decide, (extractor_discount_ranges "20% off").1 20 (by decide)⟩

/-- C7 counterexample: in the enhanced extractor the text
"use code CODEA1 use code CODEB2 ZZTOP9" yields two HIGH-tier codes,
yet the LOW-tier bare-alphanumeric pattern still contributes ZZTOP9 to
the output (the basic extractor emits it as well): there is no
fewer-than-2 gate in the cited extractors. -/
theorem low_tier_gate_counterexample :
    ((enhTagged "use code CODEA1 use code CODEB2 ZZTOP9".data).filter
        (fun t => t.conf == .high)).length = 2
    ∧ (⟨"ZZTOP9".data, .low, "alphanum"⟩ : TaggedCode)
        ∈ enhTagged "use code CODEA1 use code CODEB2 ZZTOP9".data
    ∧ "ZZTOP9".data ∈ (extractCodesEnh "use code CODEA1 use code CODEB2 ZZTOP9").codes
    ∧ "ZZTOP9".data ∈ (extractCodesBasic "use code CODEA1 use code CODEB2 ZZTOP9").codes := by
  decide

/-- C7 amended: the cited extractors consider the bare-alphanumeric
LOW-tier fallback unconditionally: every surviving tagged candidate —
in particular every LOW-tier alphanum candidate — appears in the output
code list no matter how many higher-tier codes were found. (A
fewer-than-2 gate on low-confidence patterns exists only in the
runMvp.js revision.) -/
theorem enh_low_tier_unconditional (text : List Char) (tc : TaggedCode)
    (h : tc ∈ enhTagged text) :
    tc.code ∈ (extractCodesEnhCore text).codes := by
  show tc.code ∈ enhSortedCodes (enhTagged text)
  unfold enhSortedCodes
  rw [mem_dedupKeepFirst, List.mem_map]
  refine ⟨tc, ?_, rfl⟩
  rcases htier : tc.conf with _ | _ | _ <;>
    simp [List.mem_append, List.mem_filter, h, htier]

/- ### Character provenance through the regex engine

Every character a match consumes comes from a class or literal of the
pattern, and every capture is the consumption of its group; the
following predicates and lemmas make that usable: a pattern whose
groups only repeat a class produces captures inside that class. -/

/-- Every character any sub-match of re can consume satisfies P. -/
def consPred (P : Char → Bool) : RE → Prop
  | .eps => True
  | .cls p => ∀ c, p c = true → P c = true
  | .seq a b => consPred P a ∧ consPred P b
  | .alt a b => consPred P a ∧ consPred P b
  | .grp r => consPred P r
  | .wordB => True
  | .look _ => True

/-- Every character any capture of re can contain satisfies P. -/
def capPred (P : Char → Bool) : RE → Prop
  | .seq a b => capPred P a ∧ capPred P b
  | .alt a b => capPred P a ∧ capPred P b
  | .grp r => consPred P r
  | _ => True

/-- The least number of characters a match of re consumes. -/
def minLen : RE → Nat
  | .eps => 0
  | .cls _ => 1
  | .seq a b => minLen a + minLen b
  | .alt a b => min (minLen a) (minLen b)
  | .grp r => minLen r
  | .wordB => 0
  | .look _ => 0

/-- Every match of re produces a capture. -/
def capSure : RE → Bool
  | .seq a b => capSure a || capSure b
  | .alt a b => capSure a && capSure b
  | .grp _ => true
  | _ => false

/-- Every group of re consumes at least one character. -/
def capMinOne : RE → Prop
  | .seq a b => capMinOne a ∧ capMinOne b
  | .alt a b => capMinOne a ∧ capMinOne b
  | .grp r => 1 ≤ minLen r
  | _ => True

theorem reMatch_consumed_pred {P : Char → Bool} :
    ∀ re : RE, consPred P re → ∀ (prev : Option Char) (s : List Char),
      ∀ m ∈ reMatch re prev s, ∀ c ∈ m.consumed, P c = true := by
  intro re
  induction re with
  | eps =>
    intro _ prev s m hm c hc
    simp only [reMatch, List.mem_singleton] at hm
    subst hm
    simp at hc
  | cls p =>
    intro h prev s m hm c hc
    cases s with
    | nil => simp [reMatch] at hm
    | cons a t =>
      simp only [reMatch] at hm
      split_ifs at hm with hp
      · simp only [List.mem_singleton] at hm
        subst hm
        simp only [List.mem_singleton] at hc
        subst hc
        exact h c hp
      · simp at hm
  | seq a b iha ihb =>
    intro h prev s m hm c hc
    simp only [reMatch, List.mem_flatMap, List.mem_map] at hm
    obtain ⟨ra, hra, rb, hrb, rfl⟩ := hm
    simp only [List.mem_append] at hc
    rcases hc with hc | hc
    · exact iha h.1 prev s ra hra c hc
    · exact ihb h.2 _ _ rb hrb c hc
  | alt a b iha ihb =>
    intro h prev s m hm c hc
    simp only [reMatch, List.mem_append] at hm
    rcases hm with hm | hm
    · exact iha h.1 prev s m hm c hc
    · exact ihb h.2 prev s m hm c hc
  | grp r ih =>
    intro h prev s m hm c hc
    simp only [reMatch, List.mem_map] at hm
    obtain ⟨m2, hm2, rfl⟩ := hm
    exact ih h prev s m2 hm2 c hc
  | wordB =>
    intro _ prev s m hm c hc
    simp only [reMatch] at hm
    split_ifs at hm
    · simp only [List.mem_singleton] at hm
      subst hm
      simp at hc
    · simp at hm
  | look p =>
    intro _ prev s m hm c hc
    simp only [reMatch] at hm
    split_ifs at hm
    · simp only [List.mem_singleton] at hm
      subst hm
      simp at hc
    · simp at hm

theorem reMatch_cap_pred {P : Char → Bool} :
    ∀ re : RE, capPred P re → ∀ (prev : Option Char) (s : List Char),
      ∀ m ∈ reMatch re prev s, ∀ x, m.cap = some x → ∀ c ∈ x, P c = true := by
  intro re
  induction re with
  | eps =>
    intro _ prev s m hm x hx
    simp only [reMatch, List.mem_singleton] at hm
    subst hm
    simp at hx
  | cls p =>
    intro _ prev s m hm x hx
    cases s with
    | nil => simp [reMatch] at hm
    | cons a t =>
      simp only [reMatch] at hm
      split_ifs at hm
      · simp only [List.mem_singleton] at hm
        subst hm
        simp at hx
      · simp at hm
  | seq a b iha ihb =>
    intro h prev s m hm x hx c hc
    simp only [reMatch, List.mem_flatMap, List.mem_map] at hm
    obtain ⟨ra, hra, rb, hrb, rfl⟩ := hm
    simp only at hx
    cases hcap : ra.cap with
    | some y =>
      rw [hcap] at hx
      simp only [Option.elim] at hx
      exact iha h.1 prev s ra hra x (by rw [hcap, hx]) c hc
    | none =>
      rw [hcap] at hx
      simp only [Option.elim] at hx
      exact ihb h.2 _ _ rb hrb x hx c hc
  | alt a b iha ihb =>
    intro h prev s m hm x hx c hc
    simp only [reMatch, List.mem_append] at hm
    rcases hm with hm | hm
    · exact iha h.1 prev s m hm x hx c hc
    · exact ihb h.2 prev s m hm x hx c hc
  | grp r ih =>
    intro h prev s m hm x hx c hc
    simp only [reMatch, List.mem_map] at hm
    obtain ⟨m2, hm2, rfl⟩ := hm
    simp only [Option.some_inj] at hx
    subst hx
    exact reMatch_consumed_pred r h prev s m2 hm2 c hc
  | wordB =>
    intro _ prev s m hm x hx
    simp only [reMatch] at hm
    split_ifs at hm
    · simp only [List.mem_singleton] at hm
      subst hm
      simp at hx
    · simp at hm
  | look p =>
    intro _ prev s m hm x hx
    simp only [reMatch] at hm
    split_ifs at hm
    · simp only [List.mem_singleton] at hm
      subst hm
      simp at hx
    · simp at hm

theorem reMatch_minLen :
    ∀ (re : RE) (prev : Option Char) (s : List Char),
      ∀ m ∈ reMatch re prev s, minLen re ≤ m.consumed.length := by
  intro re
  induction re with
  | eps =>
    intro prev s m hm
    simp only [reMatch, List.mem_singleton] at hm
    subst hm
    simp [minLen]
  | cls p =>
    intro prev s m hm
    cases s with
    | nil => simp [reMatch] at hm
    | cons a t =>
      simp only [reMatch] at hm
      split_ifs at hm
      · simp only [List.mem_singleton] at hm
        subst hm
        simp [minLen]
      · simp at hm
  | seq a b iha ihb =>
    intro prev s m hm
    simp only [reMatch, List.mem_flatMap, List.mem_map] at hm
    obtain ⟨ra, hra, rb, hrb, rfl⟩ := hm
    simp only [minLen, List.length_append]
    exact Nat.add_le_add (iha prev s ra hra) (ihb _ _ rb hrb)
  | alt a b iha ihb =>
    intro prev s m hm
    simp only [reMatch, List.mem_append] at hm
    rcases hm with hm | hm
    · exact le_trans (Nat.min_le_left _ _) (iha prev s m hm)
    · exact le_trans (Nat.min_le_right _ _) (ihb prev s m hm)
  | grp r ih =>
    intro prev s m hm
    simp only [reMatch, List.mem_map] at hm
    obtain ⟨m2, hm2, rfl⟩ := hm
    exact ih prev s m2 hm2
  | wordB =>
    intro prev s m hm
    simp only [reMatch] at hm
    split_ifs at hm
    · simp only [List.mem_singleton] at hm
      subst hm
      simp [minLen]
    · simp at hm
  | look p =>
    intro prev s m hm
    simp only [reMatch] at hm
    split_ifs at hm
    · simp only [List.mem_singleton] at hm
      subst hm
      simp [minLen]
    · simp at hm

theorem reMatch_capSure :
    ∀ re : RE, capSure re = true → ∀ (prev : Option Char) (s : List Char),
      ∀ m ∈ reMatch re prev s, ∃ x, m.cap = some x := by
  intro re
  induction re with
  | eps => intro h; simp [capSure] at h
  | cls p => intro h; simp [capSure] at h
  | seq a b iha ihb =>
    intro h prev s m hm
    simp only [reMatch, List.mem_flatMap, List.mem_map] at hm
    obtain ⟨ra, hra, rb, hrb, rfl⟩ := hm
    simp only [capSure, Bool.or_eq_true] at h
    cases hcap : ra.cap with
    | some y => exact ⟨y, by simp [hcap, Option.elim]⟩
    | none =>
      rcases h with h | h
      · obtain ⟨x, hx⟩ := iha h prev s ra hra
        rw [hcap] at hx
        exact absurd hx (by simp)
      · obtain ⟨x, hx⟩ := ihb h _ _ rb hrb
        exact ⟨x, by simp [hcap, Option.elim, hx]⟩
  | alt a b iha ihb =>
    intro h prev s m hm
    simp only [capSure, Bool.and_eq_true] at h
    simp only [reMatch, List.mem_append] at hm
    rcases hm with hm | hm
    · exact iha h.1 prev s m hm
    · exact ihb h.2 prev s m hm
  | grp r ih =>
    intro _ prev s m hm
    simp only [reMatch, List.mem_map] at hm
    obtain ⟨m2, hm2, rfl⟩ := hm
    exact ⟨m2.consumed, rfl⟩
  | wordB => intro h; simp [capSure] at h
  | look p => intro h; simp [capSure] at h

theorem reMatch_capNonempty :
    ∀ re : RE, capMinOne re → ∀ (prev : Option Char) (s : List Char),
      ∀ m ∈ reMatch re prev s, ∀ x, m.cap = some x → x ≠ [] := by
  intro re
  induction re with
  | eps =>
    intro _ prev s m hm x hx
    simp only [reMatch, List.mem_singleton] at hm
    subst hm
    simp at hx
  | cls p =>
    intro _ prev s m hm x hx
    cases s with
    | nil => simp [reMatch] at hm
    | cons a t =>
      simp only [reMatch] at hm
      split_ifs at hm
      · simp only [List.mem_singleton] at hm
        subst hm
        simp at hx
      · simp at hm
  | seq a b iha ihb =>
    intro h prev s m hm x hx
    simp only [reMatch, List.mem_flatMap, List.mem_map] at hm
    obtain ⟨ra, hra, rb, hrb, rfl⟩ := hm
    simp only at hx
    cases hcap : ra.cap with
    | some y =>
      rw [hcap] at hx
      simp only [Option.elim] at hx
      exact iha h.1 prev s ra hra x (by rw [hcap, hx])
    | none =>
      rw [hcap] at hx
      simp only [Option.elim] at hx
      exact ihb h.2 _ _ rb hrb x hx
  | alt a b iha ihb =>
    intro h prev s m hm x hx
    simp only [reMatch, List.mem_append] at hm
    rcases hm with hm | hm
    · exact iha h.1 prev s m hm x hx
    · exact ihb h.2 prev s m hm x hx
  | grp r ih =>
    intro h prev s m hm x hx
    simp only [reMatch, List.mem_map] at hm
    obtain ⟨m2, hm2, rfl⟩ := hm
    simp only [Option.some_inj] at hx
    subst hx
    have hlen := reMatch_minLen r prev s m2 hm2
    have hge : 1 ≤ minLen r := h
    intro hnil
    rw [hnil] at hlen
    simp only [List.length_nil, Nat.le_zero] at hlen
    omega
  | wordB =>
    intro _ prev s m hm x hx
    simp only [reMatch] at hm
    split_ifs at hm
    · simp only [List.mem_singleton] at hm
      subst hm
      simp at hx
    · simp at hm
  | look p =>
    intro _ prev s m hm x hx
    simp only [reMatch] at hm
    split_ifs at hm
    · simp only [List.mem_singleton] at hm
      subst hm
      simp at hx
    · simp at hm

theorem head_mem_of_head? {A : Type} {l : List A} {a : A} (h : l.head? = some a) : a ∈ l := by
  cases l with
  | nil => simp at h
  | cons x t =>
    simp only [List.head?_cons, Option.some_inj] at h
    subst h
    exact List.mem_cons_self x t

/-- Every matchAll result is some anchored match of the pattern. -/
theorem matchAllAux_from_reMatch {re : RE} :
    ∀ (fuel : Nat) (prev : Option Char) (s : List Char),
      ∀ mv ∈ matchAllAux re fuel prev s,
        ∃ prev2 s2 m, m ∈ reMatch re prev2 s2 ∧ mv.whole = m.consumed ∧ mv.cap = m.cap := by
  intro fuel
  induction fuel with
  | zero => intro prev s mv hmv; simp [matchAllAux] at hmv
  | succ f ih =>
    intro prev s mv hmv
    cases s with
    | nil =>
      cases hh : (reMatch re prev []).head? with
      | none =>
        simp only [matchAllAux, hh] at hmv
        simp at hmv
      | some m =>
        have hm := head_mem_of_head? hh
        simp only [matchAllAux, hh] at hmv
        split_ifs at hmv with he
        · simp only [List.mem_singleton] at hmv
          exact ⟨prev, [], m, hm, by rw [hmv], by rw [hmv]⟩
        · simp only [List.mem_cons] at hmv
          rcases hmv with rfl | hmv
          · exact ⟨prev, [], m, hm, rfl, rfl⟩
          · exact ih _ _ mv hmv
    | cons c rest =>
      cases hh : (reMatch re prev (c :: rest)).head? with
      | none =>
        simp only [matchAllAux, hh] at hmv
        exact ih (some c) rest mv hmv
      | some m =>
        have hm := head_mem_of_head? hh
        simp only [matchAllAux, hh] at hmv
        split_ifs at hmv with he
        · simp only [List.mem_cons] at hmv
          rcases hmv with rfl | hmv
          · exact ⟨prev, c :: rest, m, hm, rfl, rfl⟩
          · exact ih (some c) rest mv hmv
        · simp only [List.mem_cons] at hmv
          rcases hmv with rfl | hmv
          · exact ⟨prev, c :: rest, m, hm, rfl, rfl⟩
          · exact ih _ _ mv hmv

/-- For a pattern that always captures at least one class character,
every matchAll value consists of characters of the class. -/
theorem matchAllValues_pred_grouped {P : Char → Bool} {re : RE}
    (hcap : capPred P re) (hsure : capSure re = true) (hone : capMinOne re)
    (s : List Char) : ∀ v ∈ matchAllValues re s, ∀ c ∈ v, P c = true := by
  intro v hv c hc
  simp only [matchAllValues, matchAll, List.mem_map] at hv
  obtain ⟨mv, hmv, rfl⟩ := hv
  obtain ⟨prev2, s2, m, hm, hwhole, hcapmv⟩ := matchAllAux_from_reMatch _ _ _ mv hmv
  obtain ⟨x, hx⟩ := reMatch_capSure re hsure prev2 s2 m hm
  have hne : x ≠ [] := reMatch_capNonempty re hone prev2 s2 m hm x hx
  unfold matchValue at hc
  rw [hcapmv, hx] at hc
  simp only [List.isEmpty_eq_true] at hc
  rw [if_neg hne] at hc
  exact reMatch_cap_pred re hcap prev2 s2 m hm x hx c hc

/-- For a pattern all of whose characters lie in the class, every
matchAll value does. -/
theorem matchAllValues_pred_cons {P : Char → Bool} {re : RE}
    (hcons : consPred P re)
    (hcap : capPred P re)
    (s : List Char) : ∀ v ∈ matchAllValues re s, ∀ c ∈ v, P c = true := by
  intro v hv c hc
  simp only [matchAllValues, matchAll, List.mem_map] at hv
  obtain ⟨mv, hmv, rfl⟩ := hv
  obtain ⟨prev2, s2, m, hm, hwhole, hcapmv⟩ := matchAllAux_from_reMatch _ _ _ mv hmv
  unfold matchValue at hc
  rw [hcapmv] at hc
  cases hx : m.cap with
  | some x =>
    rw [hx] at hc
    simp only [List.isEmpty_eq_true] at hc
    by_cases hxe : x = []
    · rw [if_pos hxe, hwhole] at hc
      exact reMatch_consumed_pred re hcons prev2 s2 m hm c hc
    · rw [if_neg hxe] at hc
      exact reMatch_cap_pred re hcap prev2 s2 m hm x hx c hc
  | none =>
    rw [hx, hwhole] at hc
    exact reMatch_consumed_pred re hcons prev2 s2 m hm c hc

/- ### The class obligations of the code patterns -/

/-- Group-free sub-patterns impose no capture obligations. -/
def grpFree : RE → Bool
  | .eps => true
  | .cls _ => true
  | .seq a b => grpFree a && grpFree b
  | .alt a b => grpFree a && grpFree b
  | .grp _ => false
  | .wordB => true
  | .look _ => true

theorem capPred_of_grpFree {P : Char → Bool} :
    ∀ re : RE, grpFree re = true → capPred P re := by
  intro re
  induction re with
  | seq a b iha ihb =>
    intro h
    simp only [grpFree, Bool.and_eq_true] at h
    exact ⟨iha h.1, ihb h.2⟩
  | alt a b iha ihb =>
    intro h
    simp only [grpFree, Bool.and_eq_true] at h
    exact ⟨iha h.1, ihb h.2⟩
  | grp r _ => intro h; simp [grpFree] at h
  | eps => intro _; trivial
  | cls p => intro _; trivial
  | wordB => intro _; trivial
  | look p => intro _; trivial

theorem capMinOne_of_grpFree :
    ∀ re : RE, grpFree re = true → capMinOne re := by
  intro re
  induction re with
  | seq a b iha ihb =>
    intro h
    simp only [grpFree, Bool.and_eq_true] at h
    exact ⟨iha h.1, ihb h.2⟩
  | alt a b iha ihb =>
    intro h
    simp only [grpFree, Bool.and_eq_true] at h
    exact ⟨iha h.1, ihb h.2⟩
  | grp r _ => intro h; simp [grpFree] at h
  | eps => intro _; trivial
  | cls p => intro _; trivial
  | wordB => intro _; trivial
  | look p => intro _; trivial

@[simp]
theorem grpFree_eps : grpFree .eps = true := rfl

@[simp]
theorem grpFree_cls (p : Char → Bool) : grpFree (.cls p) = true := rfl

@[simp]
theorem grpFree_wordB : grpFree .wordB = true := rfl

@[simp]
theorem grpFree_look (p : List Char → Bool) : grpFree (.look p) = true := rfl

@[simp]
theorem grpFree_seq (a b : RE) : grpFree (.seq a b) = (grpFree a && grpFree b) := rfl

@[simp]
theorem grpFree_alt (a b : RE) : grpFree (.alt a b) = (grpFree a && grpFree b) := rfl

@[simp]
theorem grpFree_strRE : ∀ w : List Char, grpFree (strRE w) = true := by
  intro w
  induction w with
  | nil => rfl
  | cons c t ih => simp [strRE, grpFree, ih]

@[simp]
theorem grpFree_strCIRE : ∀ w : List Char, grpFree (strCIRE w) = true := by
  intro w
  induction w with
  | nil => rfl
  | cons c t ih => simp [strCIRE, grpFree, ih]

@[simp]
theorem grpFree_altRE {l : List RE} (h : ∀ r ∈ l, grpFree r = true) :
    grpFree (altRE l) = true := by
  induction l with
  | nil => rfl
  | cons r t ih =>
    cases t with
    | nil => exact h r (List.mem_singleton.mpr rfl)
    | cons r2 t2 =>
      simp only [altRE, grpFree, Bool.and_eq_true]
      exact ⟨h r (by simp), ih (fun x hx => h x (List.mem_cons_of_mem r hx))⟩

@[simp]
theorem grpFree_reRepExact {r : RE} (h : grpFree r = true) :
    ∀ n, grpFree (reRepExact r n) = true := by
  intro n
  induction n with
  | zero => rfl
  | succ k ih => simp [reRepExact, grpFree, h, ih]

@[simp]
theorem grpFree_reRepMax {r : RE} (h : grpFree r = true) :
    ∀ n, grpFree (reRepMax r n) = true := by
  intro n
  induction n with
  | zero => rfl
  | succ k ih => simp [reRepMax, grpFree, h, ih]

@[simp]
theorem grpFree_reRep {r : RE} (h : grpFree r = true) (lo hi : Nat) :
    grpFree (reRep r lo hi) = true := by
  simp [reRep, grpFree, h]

@[simp]
theorem grpFree_reOpt {r : RE} (h : grpFree r = true) : grpFree (reOpt r) = true := by
  simp [reOpt, grpFree, h]

theorem consPred_reRepExact {P : Char → Bool} {r : RE} (h : consPred P r) :
    ∀ n, consPred P (reRepExact r n) := by
  intro n
  induction n with
  | zero => trivial
  | succ k ih => exact ⟨h, ih⟩

theorem consPred_reRepMax {P : Char → Bool} {r : RE} (h : consPred P r) :
    ∀ n, consPred P (reRepMax r n) := by
  intro n
  induction n with
  | zero => trivial
  | succ k ih => exact ⟨⟨h, ih⟩, trivial⟩

theorem consPred_reRep {P : Char → Bool} {r : RE} (h : consPred P r) (lo hi : Nat) :
    consPred P (reRep r lo hi) :=
  ⟨consPred_reRepExact h lo, consPred_reRepMax h (hi - lo)⟩

@[simp]
theorem minLen_reRepExact (r : RE) : ∀ n, minLen (reRepExact r n) = n * minLen r := by
  intro n
  induction n with
  | zero => simp [reRepExact, minLen]
  | succ k ih => simp [reRepExact, minLen, ih, Nat.succ_mul, Nat.add_comm]

@[simp]
theorem minLen_reRepMax (r : RE) : ∀ n, minLen (reRepMax r n) = 0 := by
  intro n
  induction n with
  | zero => rfl
  | succ k ih => simp [reRepMax, minLen, ih]

@[simp]
theorem minLen_reRep (r : RE) (lo hi : Nat) : minLen (reRep r lo hi) = lo * minLen r := by
  simp [reRep, minLen]

/-- Characters of the case-sensitive class [A-Z0-9] are alphanumeric. -/
theorem upperAlnum_alnum : ∀ c, isUpperAlnum c = true → isAlnumCI c = true := by
  intro c h
  simp only [isUpperAlnum, Bool.or_eq_true] at h
  simp only [isAlnumCI, Bool.or_eq_true]
  tauto

/-- Every value any code pattern of the enhanced extractor produces
consists of alphanumeric characters (captures are runs of the
alphanumeric classes; the group-less alphanum pattern consumes only
[A-Z0-9] between its boundary and lookahead assertions). -/
theorem enh_pattern_values_alnum (n : Nat) :
    ∀ e ∈ enhCodePatterns n, ∀ s : List Char,
      ∀ v ∈ matchAllValues e.2.2 s, ∀ c ∈ v, isAlnumCI c = true := by
  intro e he s
  have hgroup : ∀ re : RE, capPred isAlnumCI re → capSure re = true → capMinOne re →
      ∀ v ∈ matchAllValues re s, ∀ c ∈ v, isAlnumCI c = true :=
    fun re h1 h2 h3 => matchAllValues_pred_grouped h1 h2 h3 s
  simp only [enhCodePatterns, List.mem_cons, List.not_mem_nil, or_false] at he
  have halnum : consPred isAlnumCI (.cls isAlnumCI) := fun c h => h
  have hua : consPred isAlnumCI (.cls isUpperAlnum) := upperAlnum_alnum
  rcases he with rfl | rfl | rfl | rfl | rfl | rfl | rfl | rfl
  · exact hgroup _ ⟨trivial, consPred_reRep hua 3 15, trivial⟩
      (by simp [quotedCodesRE, capSure])
      ⟨trivial, by simp [capMinOne, minLen], trivial⟩
  · exact hgroup _
      ⟨capPred_of_grpFree _ (by simp [useCodeEnhRE]),
       capPred_of_grpFree _ (by simp [wsPlus]),
       capPred_of_grpFree _ (by simp [reOpt]),
       capPred_of_grpFree _ (by simp),
       consPred_reRep halnum 3 15⟩
      (by simp [useCodeEnhRE, wsPlus, capSure])
      ⟨capMinOne_of_grpFree _ (by simp [useCodeEnhRE]),
       capMinOne_of_grpFree _ (by simp [wsPlus]),
       capMinOne_of_grpFree _ (by simp [reOpt]),
       capMinOne_of_grpFree _ (by simp),
       by simp [capMinOne, minLen]⟩
  · exact hgroup _
      ⟨capPred_of_grpFree _ (by simp [checkoutCodeRE, wsPlus]),
       capPred_of_grpFree _ (by simp),
       consPred_reRep halnum 3 15⟩
      (by simp [checkoutCodeRE, capSure])
      ⟨capMinOne_of_grpFree _ (by simp [checkoutCodeRE, wsPlus]),
       capMinOne_of_grpFree _ (by simp),
       by simp [capMinOne, minLen]⟩
  · exact hgroup _
      ⟨capPred_of_grpFree _ (by simp),
       capPred_of_grpFree _ (by simp [wsPlus]),
       capPred_of_grpFree _ (by simp [reOpt]),
       capPred_of_grpFree _ (by simp),
       consPred_reRep halnum 3 15⟩
      (by simp [withCodeRE, wsPlus, capSure])
      ⟨capMinOne_of_grpFree _ (by simp),
       capMinOne_of_grpFree _ (by simp [wsPlus]),
       capMinOne_of_grpFree _ (by simp [reOpt]),
       capMinOne_of_grpFree _ (by simp),
       by simp [capMinOne, minLen]⟩
  · exact hgroup _
      ⟨capPred_of_grpFree _ (by simp),
       capPred_of_grpFree _ (by simp),
       consPred_reRep halnum 3 15⟩
      (by simp [couponRE, capSure])
      ⟨capMinOne_of_grpFree _ (by simp),
       capMinOne_of_grpFree _ (by simp),
       by simp [capMinOne, minLen]⟩
  · exact hgroup _
      ⟨capPred_of_grpFree _ (by simp),
       capPred_of_grpFree _ (by simp [reOpt]),
       capPred_of_grpFree _ (by simp),
       consPred_reRep halnum 3 15⟩
      (by simp [promoRE, reOpt, capSure])
      ⟨capMinOne_of_grpFree _ (by simp),
       capMinOne_of_grpFree _ (by simp [reOpt]),
       capMinOne_of_grpFree _ (by simp),
       by simp [capMinOne, minLen]⟩
  · exact hgroup _
      ⟨capPred_of_grpFree _ (by simp),
       capPred_of_grpFree _ (by simp),
       consPred_reRep halnum 3 15⟩
      (by simp [codePrefRE, capSure])
      ⟨capMinOne_of_grpFree _ (by simp),
       capMinOne_of_grpFree _ (by simp),
       by simp [capMinOne, minLen]⟩
  · refine @matchAllValues_pred_cons isAlnumCI alphanumRE ?_ ?_ s
    · exact ⟨trivial, trivial, trivial, consPred_reRep hua 4 12, trivial⟩
    · exact ⟨trivial, trivial, trivial, capPred_of_grpFree _ (by simp), trivial⟩

/-- ASCII: the uppercase image of an alphanumeric character is a digit
or an uppercase letter. -/
theorem toUpper_alnum (c : Char) (h : isAlnumCI c = true) :
    ((c.toUpper).isDigit || (c.toUpper).isUpper) = true := by
  simp only [isAlnumCI, Bool.or_eq_true, Char.isUpper, Char.isLower, Char.isDigit,
    Bool.and_eq_true, decide_eq_true_eq] at h
  unfold Char.toUpper
  rcases h with (⟨h1, h2⟩ | ⟨h1, h2⟩) | ⟨h1, h2⟩
  · have hn2 : c.toNat ≤ 90 := h2
    rw [if_neg (by omega)]
    simp only [Char.isUpper, Char.isDigit, Bool.or_eq_true, Bool.and_eq_true, decide_eq_true_eq]
    exact Or.inr ⟨h1, h2⟩
  · have hn1 : 97 ≤ c.toNat := h1
    have hn2 : c.toNat ≤ 122 := h2
    rw [if_pos ⟨hn1, hn2⟩]
    have hvalid : (c.toNat - 32).isValidChar := Or.inl (by omega)
    simp only [Char.isUpper, Char.isDigit, Bool.or_eq_true, Bool.and_eq_true, decide_eq_true_eq]
    refine Or.inr ⟨?_, ?_⟩
    · show (65 : UInt32).toNat ≤ (Char.ofNat (c.toNat - 32)).val.toNat
      rw [Char.ofNat, dif_pos hvalid]
      simp [Char.ofNatAux, UInt32.toNat_ofNat, Nat.toUInt32, UInt32.toNat, BitVec.toNat_ofNatLt]
      omega
    · show (Char.ofNat (c.toNat - 32)).val.toNat ≤ (90 : UInt32).toNat
      rw [Char.ofNat, dif_pos hvalid]
      simp [Char.ofNatAux, UInt32.toNat_ofNat, Nat.toUInt32, UInt32.toNat, BitVec.toNat_ofNatLt]
      omega
  · have hn2 : c.toNat ≤ 57 := h2
    rw [if_neg (by omega)]
    simp only [Char.isUpper, Char.isDigit, Bool.or_eq_true, Bool.and_eq_true, decide_eq_true_eq]
    exact Or.inl ⟨h1, h2⟩

/-- A surviving candidate of the enhanced code filter whose raw value
is alphanumeric is never a single repeated character: its uppercased
form would be all digits or all uppercase letters, which the filter
rejects. -/
theorem enhProcessCode_not_repeated {tier : Tier} {name : String} {v : List Char}
    {t : TaggedCode} (hp : enhProcessCode tier name v = some t)
    (hchars : ∀ c ∈ v, isAlnumCI c = true) :
    isRepeatedChar t.code = false := by
  simp only [enhProcessCode] at hp
  split_ifs at hp with h1 h2 h3 h4 h5 <;> simp only [Option.some_inj, reduceCtorEq] at hp
  case _ =>
    subst hp
    simp only
    by_contra hrep
    simp only [Bool.not_eq_false] at hrep
    apply h3
    cases hcode : jsTrim v with
    | nil => rw [hcode] at hrep; simp [isRepeatedChar] at hrep
    | cons x rest =>
      rw [hcode] at hrep
      simp only [isRepeatedChar, Bool.and_eq_true, List.all_eq_true, beq_iff_eq] at hrep
      have hx : isAlnumCI x = true :=
        hchars x (mem_jsTrim (by rw [hcode]; exact List.mem_cons_self x rest))
      have hall : ∀ y ∈ upperStr (x :: rest), y = x.toUpper := by
        intro y hy
        simp only [upperStr, List.map_cons, List.mem_cons, List.mem_map] at hy
        rcases hy with rfl | ⟨z, hz, rfl⟩
        · rfl
        · rw [hrep.2 z hz]
      have hne : (upperStr (x :: rest)).isEmpty = false := by
        simp [upperStr]
      simp only [Bool.or_eq_true]
      rcases Bool.or_eq_true _ _ |>.mp (toUpper_alnum x hx) with hd | hu
      · apply Or.inl
        simp only [Bool.and_eq_true, List.all_eq_true]
        refine ⟨by simp [hne], ?_⟩
        intro y hy
        rw [hall y hy]
        exact hd
      · apply Or.inr
        simp only [Bool.and_eq_true, List.all_eq_true]
        refine ⟨by simp [hne], ?_⟩
        intro y hy
        rw [hall y hy]
        exact hu

/-- C8 amended: the enhanced extractor never outputs a
repeated-character code, for any input text: every candidate is
alphanumeric, and a repeated alphanumeric candidate uppercases to an
all-digit or all-uppercase-letter string, which the filter rejects.
(The basic extractor has no such filter; see the counterexample.) -/
theorem enh_no_repeated_codes (text : String) :
    ∀ c ∈ (extractCodesEnh text).codes, isRepeatedChar c = false := by
  intro c hc
  unfold extractCodesEnh at hc
  split_ifs at hc with hg
  · simp [emptyEnhExtraction] at hc
  · unfold extractCodesEnhCore at hc
    simp only at hc
    unfold enhSortedCodes at hc
    rw [mem_dedupKeepFirst, List.mem_map] at hc
    obtain ⟨t, ht, rfl⟩ := hc
    have ht2 : t ∈ enhTagged text.data := by
      rcases List.mem_append.mp ht with h | h
      · rcases List.mem_append.mp h with h | h
        · exact (List.mem_filter.mp h).1
        · exact (List.mem_filter.mp h).1
      · exact (List.mem_filter.mp h).1
    unfold enhTagged at ht2
    rw [List.mem_flatMap] at ht2
    obtain ⟨e, he, hte⟩ := ht2
    rw [List.mem_filterMap] at hte
    obtain ⟨v, hv, hp⟩ := hte
    exact enhProcessCode_not_repeated hp
      (enh_pattern_values_alnum text.data.length e he text.data v hv)

/-- C8 counterexample: the basic extractor of src/textExtract.js has no
repeated-character rule; the quoted repeated-character codes AAAA and
1111 survive its blacklist and length checks and appear in the output. -/
theorem repeated_code_counterexample :
    "AAAA".data ∈ (extractCodesBasic "\"AAAA\" and \"1111\"").codes
    ∧ "1111".data ∈ (extractCodesBasic "\"AAAA\" and \"1111\"").codes
    ∧ isRepeatedChar "AAAA".data = true
    ∧ isRepeatedChar "1111".data = true := by
  decide

/-- Witness for C8 amended: the code TECH50 extracted by the enhanced
extractor is not a repeated character. -/
theorem enh_no_repeated_codes_witness :
    "TECH50".data ∈ (extractCodesEnh "Use code TECH50 for discount!").codes
    ∧ isRepeatedChar "TECH50".data = false :=
  ⟨by decide,
   enh_no_repeated_codes "Use code TECH50 for discount!" "TECH50".data (by decide)⟩

/-- Witness for C7 amended at the counterexample text: the LOW-tier
candidate ZZTOP9 is in the tagged set and hence in the output codes. -/
theorem enh_low_tier_unconditional_witness :
    (⟨"ZZTOP9".data, .low, "alphanum"⟩ : TaggedCode)
      ∈ enhTagged "use code CODEA1 use code CODEB2 ZZTOP9".data
    ∧ "ZZTOP9".data
      ∈ (extractCodesEnhCore "use code CODEA1 use code CODEB2 ZZTOP9".data).codes :=
  ⟨by decide,
   enh_low_tier_unconditional "use code CODEA1 use code CODEB2 ZZTOP9".data
     ⟨"ZZTOP9".data, .low, "alphanum"⟩ (by decide)⟩


/-- C5 counterexample: a candidate record whose codes array holds the
number 42 instead of a string makes scoreMatch throw a TypeError (the
source calls code.substring inside detectYouTubeSuspiciousPatterns), so
the scorer does not recover from every malformed input. -/
theorem scoreMatch_throws_counterexample :
    scoreMatchJ { codes := JVal.vArr [JVal.vNum 42] }
      = .error (.typeError "not a string".data) := by decide

/-- C5 (amended): on a well-typed input record (string codes and
links, numeric discounts, a string-to-number confidence table, string
metadata fields) whose codes and sponsor brands are alphanumeric — the
fragments the source interpolates into dynamically built RegExps; on a
fragment with a regex metacharacter such as a parenthesis the source
instead throws a RegExp SyntaxError, a second failure of the original
claim that the literal-fragment embedding does not model — scoreMatch
throws nothing and returns exactly the rational calcR value, which
always lies within [0, 1]. -/
theorem scoreMatch_typed_total_bounded (t : TypedArgs)
    (hcodes : ∀ c ∈ t.codes, c.all isAlnumCI = true)
    (hbrands : ∀ b ∈ t.sponsorBrands, b.all isAlnumCI = true) :
    scoreMatchJ (injectArgs t) = .ok (some (calcR t))
      ∧ 0 ≤ calcR t ∧ calcR t ≤ 1 := by
  refine ⟨scoreMatch_inject_eval t, ?_, ?_⟩
  · exact le_max_left 0 _
  · exact max_le (by norm_num) (min_le_right _ 1)

/-- C5 witness: the amended theorem instantiated at a record with the
alphanumeric code SAVE20 and sponsor brand acme. -/
theorem scoreMatch_typed_total_bounded_witness :
    scoreMatchJ (injectArgs boundedArgs) = .ok (some (calcR boundedArgs))
      ∧ 0 ≤ calcR boundedArgs ∧ calcR boundedArgs ≤ 1 :=
  scoreMatch_typed_total_bounded boundedArgs (by decide) (by decide)

set_option maxRecDepth 100000 in
/-- C3 counterexample: adding the valid HIGH-tier code CHAX2 (registered
with confidence 0.9, not flagged by the generic suspicious-code test,
and present in the raw text) to a candidate set scoring 13/20 drops the
score to 1027/1600: the max/average blend lets a second valid code dilute
the channel-name pattern boost earned by the first. -/
theorem score_monotonicity_counterexample :
    scoreMatchJ monoArgsBase = .ok (some (13/20))
    ∧ scoreMatchJ monoArgsMore = .ok (some (1027/1600))
    ∧ ((1027 : ℚ)/1600 < 13/20)
    ∧ suspR "CHAX2".data = false
    ∧ baseConfR [("CHAN1".data, 0.9), ("CHAX2".data, 0.9)] "CHAX2".data = 0.9
    ∧ strContains (lowerStr "chan1 chax2".data) (lowerStr "CHAX2".data) = true := by
  refine ⟨by decide, by decide, by norm_num, by decide, by decide, by decide⟩

/-- C3 (amended): adding one valid high-tier code (registered in the
confidence table with at least 0.9 and passing the generic
suspicious-code filter) to a candidate set containing no codes at all
never decreases the scorer result. -/
theorem scoreMatch_add_high_code_monotone (t : TypedArgs) (c : List Char)
    (hempty : t.codes = []) (hcc : 0 < t.codeConfidence.length)
    (hbase : (0.9 : ℚ) ≤ baseConfR t.codeConfidence c)
    (hsusp : suspR c = false) (r r' : ℚ)
    (h1 : scoreMatchJ (injectArgs t) = .ok (some r))
    (h2 : scoreMatchJ (injectArgs { t with codes := [c] }) = .ok (some r')) :
    r ≤ r' := by
  rw [scoreMatch_inject_eval] at h1 h2
  simp only [Except.ok.injEq] at h1 h2
  injection h1 with h1
  injection h2 with h2
  subst h1
  subst h2
  obtain ⟨codes, links, percent, flat, cc, rt, vm, brands⟩ := t
  simp only at hempty hcc hbase
  subst hempty
  simp only [calcR, List.length_nil, List.length_cons, List.length_singleton, lt_self_iff_false,
    if_false, zero_lt_one, if_true, hcc, List.map_cons, List.map_nil, maxListR,
    List.foldl_nil, List.sum_cons, List.sum_nil, add_zero, Nat.cast_one, div_one,
    List.filter_cons, hsusp, List.filter_nil, Bool.false_eq_true, zero_add, sub_zero,
    false_and, true_and]
  have hfc : (0.9:ℚ) ≤ enhConfR cc c rt brands vm := enhConfR_ge cc c rt brands vm hbase
  have hB := bonusesR_bounds [c] vm
  have hd : detectLenR [c] rt ≤ 1 := detectLenR_single c rt
  have hp1 : (0:ℚ) ≤ (if 0 < detectLenR [c] rt
        then min (0.15:ℚ) ((detectLenR [c] rt : ℚ) * 0.05) else 0)
      ∧ (if 0 < detectLenR [c] rt
        then min (0.15:ℚ) ((detectLenR [c] rt : ℚ) * 0.05) else 0) ≤ 0.05 := by
    rcases Nat.le_one_iff_eq_zero_or_eq_one.mp hd with h | h <;> rw [h] <;>
      constructor <;> norm_num [min_def]
  have hX : (0.585:ℚ) ≤ min ((enhConfR cc c rt brands vm * 0.75
        + enhConfR cc c rt brands vm * 0.25) * 0.65 + bonusesR [c] vm) 0.65 := by
    refine le_min ?_ (by norm_num)
    nlinarith [hB.1, hfc]
  have hc1 : (0:ℚ) ≤ (if (0 < percent.length ∨ 0 < flat.length) ∧ 0 < brands.length
      then (8e-2:ℚ) else if 0 < percent.length ∨ 0 < flat.length then 5e-2 else 0) := by
    split_ifs <;> norm_num
  have hCt : min (min ((((List.filter (fun re => reTest re rt)
          (sponsorSegREs rt.length)).length : ℚ)) * 0.02) 0.07) 0.15
      ≤ min ((if (0 < percent.length ∨ 0 < flat.length) ∧ 0 < brands.length
            then (8e-2:ℚ) else if 0 < percent.length ∨ 0 < flat.length then 5e-2 else 0)
          + min ((((List.filter (fun re => reTest re rt)
              (sponsorSegREs rt.length)).length : ℚ)) * 0.02) 0.07) 0.15 := by
    refine min_le_min ?_ le_rfl
    exact le_add_of_nonneg_left hc1
  gcongr
  linarith [hX, hCt, hp1.1, hp1.2]

set_option maxRecDepth 100000 in
/-- C3 witness: the amended monotonicity theorem instantiated at the code
SAVE20 registered with confidence 0.9 over an otherwise empty record
(scores 0 without and 107/200 with the code). -/
theorem scoreMatch_add_high_code_monotone_witness :
    suspR "SAVE20".data = false ∧ (0 : ℚ) ≤ 107/200 :=
  ⟨by decide,
   scoreMatch_add_high_code_monotone { codeConfidence := [("SAVE20".data, 0.9)] }
     "SAVE20".data rfl (by decide) (by decide) (by decide) 0 (107/200)
     (by decide) (by decide)⟩

end SmartFetch
